import Mathlib

/-!
# Game of Life (`src/main_2.cpp`): a shallow embedding and its verification

The program keeps the board as a `std::vector<std::vector<Cell>>`, here a list of
rows.  The two global `int`s `ROWS` and `COLS` are explicit parameters of every
function that reads them.

C++ `int` values are integers (`Int`).  In the counting loops the arithmetic on cell
coordinates is the mathematical one; it is the arithmetic of `int` whenever the
coordinates lie between `INT_MIN + 1` and `INT_MAX - 2`, in particular on every
well-formed board with fewer than `2^31 - 1` rows and columns.  The counter of the
generation loop is compared with a value read from the input, so its increment is
modelled with its overflow: incrementing `INT_MAX` has no defined result.

`std::vector::operator[]` has no defined result outside the vector.  The embedding
makes that explicit: a lookup returns `none` there, and every function that performs
lookups returns an `Option`, `none` standing for "left defined behaviour".

Standard input is the list of whitespace-delimited tokens that `std::cin >> input`
extracts one after the other (after the three integers of the header), standard output
is the string written so far.
-/

namespace GameOfLife

/-! ## Data model -/

/-- The largest value of a C++ `int`, `2^31 - 1`. -/
def INT_MAX : Int := 2147483647

/-- The smallest value of a C++ `int`, `-2^31`. -/
def INT_MIN : Int := -2147483648

/-- The `Cell` struct: a live flag and the coordinates the cell was created with. -/
structure Cell where
  isLive : Bool
  posI : Int
  posJ : Int
  deriving DecidableEq, Repr

/-- The board type `std::vector<std::vector<Cell>>`. -/
abbrev Board := List (List Cell)

/-- `Cell::getDrawnCell`. -/
def Cell.getDrawnCell (self : Cell) : String :=
  if self.isLive then "*" else "."

/-- `Cell::equals`: all three fields and the drawn symbol agree. -/
def Cell.equals (self cell : Cell) : Bool :=
  (self.isLive == cell.isLive) && (self.posI == cell.posI) && (self.posJ == cell.posJ)
    && (self.getDrawnCell == cell.getDrawnCell)

/-! ## Printing -/

/-- The inner loop of `printBoard` over one row: `size` is `row.size()`, `j` the loop
index of the first cell of the remaining list, `out` the text written so far.
`size - 1` is the unsigned subtraction of the source; it is only evaluated inside the
loop body, where `size ≥ 1`. -/
def printRowLoop (size : Nat) : Nat → List Cell → String → String
  | _, [], out => out
  | j, c :: rest, out =>
    let out := out ++ c.getDrawnCell
    let out := if j ≠ size - 1 then out ++ " " else out
    printRowLoop size (j + 1) rest out

/-- The outer loop of `printBoard`: every row, then `std::endl`. -/
def printBoardLoop : List (List Cell) → String → String
  | [], out => out
  | row :: rest, out =>
    let out := printRowLoop row.length 0 row out
    printBoardLoop rest (out ++ "\n")

/-- The text `printBoard` writes for a board. -/
def printBoard (board : Board) : String :=
  printBoardLoop board ""

/-! ## Neighbour counting -/

/-- `inBoundsI`. -/
def inBoundsI (ROWS : Int) (i : Int) : Bool :=
  if i < 0 ∨ i ≥ ROWS then false else true

/-- `inBoundsJ`. -/
def inBoundsJ (COLS : Int) (j : Int) : Bool :=
  if j < 0 ∨ j ≥ COLS then false else true

/-- The lookup `board[i][j]` with `int` indices: defined only when `i` indexes a row of
the board and `j` a cell of that row. -/
def boardAt (board : Board) (i j : Int) : Option Cell :=
  if i < 0 ∨ j < 0 then none
  else
    match board[i.toNat]? with
    | none => none
    | some row => row[j.toNat]?

/-- The inner `for` loop of `getCellLiveNeighborCount` for a fixed row index `i`; the
list holds the values `j` still has to take, `cnt` is `liveNeighborCount`. -/
def neighborColLoop (COLS : Int) (board : Board) (cell : Cell) (i : Int) :
    List Int → Int → Option Int
  | [], cnt => some cnt
  | j :: rest, cnt =>
    if !inBoundsJ COLS j then neighborColLoop COLS board cell i rest cnt
    else
      match boardAt board i j with
      | none => none
      | some neighbor =>
        if neighbor.equals cell then neighborColLoop COLS board cell i rest cnt
        else if neighbor.isLive then neighborColLoop COLS board cell i rest (cnt + 1)
        else neighborColLoop COLS board cell i rest cnt

/-- The outer `for` loop of `getCellLiveNeighborCount`; the first list holds the values
`i` still has to take, `js` the values `j` takes in every inner loop. -/
def neighborRowLoop (ROWS COLS : Int) (board : Board) (cell : Cell) (js : List Int) :
    List Int → Int → Option Int
  | [], cnt => some cnt
  | i :: rest, cnt =>
    if !inBoundsI ROWS i then neighborRowLoop ROWS COLS board cell js rest cnt
    else
      match neighborColLoop COLS board cell i js cnt with
      | none => none
      | some cnt' => neighborRowLoop ROWS COLS board cell js rest cnt'

/-- `getCellLiveNeighborCount`: `i` runs from `startingI` to `startingI + 2` and `j` from
`startingJ` to `startingJ + 2`. -/
def getCellLiveNeighborCount (ROWS COLS : Int) (board : Board) (cell : Cell) : Option Int :=
  let startingI := cell.posI - 1
  let startingJ := cell.posJ - 1
  neighborRowLoop ROWS COLS board cell [startingJ, startingJ + 1, startingJ + 2]
    [startingI, startingI + 1, startingI + 2] 0

/-! ## The rule and the generation step -/

/-- `getUpdatedCell`: the cell with its live flag set by the rule. -/
def getUpdatedCell (ROWS COLS : Int) (board : Board) (cell : Cell) : Option Cell :=
  match getCellLiveNeighborCount ROWS COLS board cell with
  | none => none
  | some liveNieghborCount =>
    if cell.isLive then
      if liveNieghborCount < 2 then some { cell with isLive := false }
      else if liveNieghborCount > 3 then some { cell with isLive := false }
      else some cell
    else
      if liveNieghborCount = 3 then some { cell with isLive := true }
      else some cell

/-- The inner loop of `applyRulesetToGeneration` over the cells of one old row;
`newGenRow` grows by `push_back`. -/
def applyRowLoop (ROWS COLS : Int) (oldGenBoard : Board) :
    List Cell → List Cell → Option (List Cell)
  | [], newGenRow => some newGenRow
  | oldGenCell :: rest, newGenRow =>
    match getUpdatedCell ROWS COLS oldGenBoard oldGenCell with
    | none => none
    | some newGenCell => applyRowLoop ROWS COLS oldGenBoard rest (newGenRow ++ [newGenCell])

/-- The outer loop of `applyRulesetToGeneration` over the rows of the old board;
`newGenBoard` grows by `push_back`. -/
def applyBoardLoop (ROWS COLS : Int) (oldGenBoard : Board) :
    List (List Cell) → Board → Option Board
  | [], newGenBoard => some newGenBoard
  | oldGenRow :: rest, newGenBoard =>
    match applyRowLoop ROWS COLS oldGenBoard oldGenRow [] with
    | none => none
    | some newGenRow => applyBoardLoop ROWS COLS oldGenBoard rest (newGenBoard ++ [newGenRow])

/-- `applyRulesetToGeneration`. -/
def applyRulesetToGeneration (ROWS COLS : Int) (oldGenBoard : Board) : Option Board :=
  applyBoardLoop ROWS COLS oldGenBoard oldGenBoard []

/-! ## The program -/

/-- The reading loop of `main`: one iteration per extracted token. -/
def readLoop (ROWS COLS : Int) : List String → Board → List Cell → Int → Board
  | [], board, _, _ => board
  | input :: rest, board, cellRowArray, rowCount =>
    let isLive : Bool := if input = "*" then true else false
    let col : Int := (cellRowArray.length : Int)
    let cell : Cell := { isLive := isLive, posI := rowCount, posJ := col }
    let cellRowArray := cellRowArray ++ [cell]
    if col ≥ COLS - 1 then
      let board := board ++ [cellRowArray]
      let rowCount := rowCount + 1
      if rowCount ≥ ROWS then board else readLoop ROWS COLS rest board [] rowCount
    else
      if rowCount ≥ ROWS then board else readLoop ROWS COLS rest board cellRowArray rowCount

/-- The board `main` builds from the tokens (generation 0). -/
def readBoard (ROWS COLS : Int) (tokens : List String) : Board :=
  readLoop ROWS COLS tokens [] [] 0

/-- The generation loop of `main`, `for(int i = 1; i <= MAX_GENERATIONS; i++)`.  The
first argument bounds the number of iterations; the state is the loop counter, the board
and the text written so far.  The increment `i++` after the body has no defined result
when `i` is `INT_MAX`. -/
def generationLoop (ROWS COLS MAX_GENERATIONS : Int) :
    Nat → Int → Board → String → Option (Board × String)
  | 0, _, board, out => some (board, out)
  | fuel + 1, i, board, out =>
    if i ≤ MAX_GENERATIONS then
      match applyRulesetToGeneration ROWS COLS board with
      | none => none
      | some board' =>
        let out' := if i = MAX_GENERATIONS then out ++ printBoard board' else out
        if i + 1 > INT_MAX then none
        else generationLoop ROWS COLS MAX_GENERATIONS fuel (i + 1) board' out'
    else some (board, out)

/-- The program: the header integers, then the cell tokens; the result is the text on
standard output, `none` when the run leaves defined behaviour.  The counter starts at
`1`, so `MAX_GENERATIONS` iterations suffice (see `generationLoop_fuel`). -/
def main (ROWS COLS MAX_GENERATIONS : Int) (tokens : List String) : Option String :=
  match generationLoop ROWS COLS MAX_GENERATIONS MAX_GENERATIONS.toNat 1
      (readBoard ROWS COLS tokens) "" with
  | none => none
  | some (_, out) => some out

/-! ## Specification-side notions -/

/-- A board is well formed for `ROWS` and `COLS`: exactly `ROWS` rows of exactly `COLS`
cells, every cell carrying its own row and column index. -/
def WellFormed (ROWS COLS : Int) (g : Board) : Prop :=
  (g.length : Int) = ROWS ∧
  ∀ i : Fin g.length, ((g.get i).length : Int) = COLS ∧
    ∀ j : Fin (g.get i).length,
      ((g.get i).get j).posI = ((i : Nat) : Int) ∧ ((g.get i).get j).posJ = ((j : Nat) : Int)

instance (ROWS COLS : Int) (g : Board) : Decidable (WellFormed ROWS COLS g) := by
  unfold WellFormed; infer_instance

/-- The live flag of the cell at `(i, j)`; `false` where the board has no cell. -/
def liveAt (g : Board) (i j : Int) : Bool :=
  match boardAt g i j with
  | some cell => cell.isLive
  | none => false

/-- The eight offsets `(dr, dc)` with `dr, dc ∈ {-1, 0, 1}` and `(dr, dc) ≠ (0, 0)`. -/
def neighbourOffsets : List (Int × Int) :=
  [(-1, -1), (-1, 0), (-1, 1), (0, -1), (0, 1), (1, -1), (1, 0), (1, 1)]

/-- The position `(r + dr, c + dc)` lies in `[0, ROWS) × [0, COLS)`. -/
def inGrid (ROWS COLS : Int) (r c : Int) (d : Int × Int) : Bool :=
  decide (0 ≤ r + d.1 ∧ r + d.1 < ROWS ∧ 0 ≤ c + d.2 ∧ c + d.2 < COLS)

/-- The number of live cells among the in-grid Moore neighbours of `(r, c)`: of the
eight surrounding positions, those inside the grid are kept and the live ones counted. -/
def mooreLiveCount (ROWS COLS : Int) (g : Board) (r c : Int) : Nat :=
  (neighbourOffsets.filter (inGrid ROWS COLS r c)).countP
    (fun d => liveAt g (r + d.1) (c + d.2))

/-- The rule of the game on a live flag and a neighbour count. -/
def nextCellState (isAlive : Bool) (liveNeighborCount : Int) : Bool :=
  if isAlive then decide (liveNeighborCount = 2 ∨ liveNeighborCount = 3)
  else decide (liveNeighborCount = 3)

/-- The well-formed `R × C` board whose cell `(i, j)` is live exactly when `f i j`. -/
def mkGrid (R C : Nat) (f : Int → Int → Bool) : Board :=
  (List.range R).map fun (i : Nat) => (List.range C).map fun (j : Nat) =>
    ({ isLive := f (i : Int) (j : Int), posI := (i : Int), posJ := (j : Int) } : Cell)

/-- The `R × C` board whose live cells are exactly the 2 × 2 block with top-left corner
`(r, c)`. -/
def blockGrid (R C : Nat) (r c : Int) : Board :=
  mkGrid R C fun i j => decide ((i = r ∨ i = r + 1) ∧ (j = c ∨ j = c + 1))

/-- The step applied `n` times, starting from `g`. -/
def iterateGenerations (ROWS COLS : Int) : Nat → Board → Option Board
  | 0, g => some g
  | n + 1, g =>
    match applyRulesetToGeneration ROWS COLS g with
    | none => none
    | some g' => iterateGenerations ROWS COLS n g'

/-! ## Example data -/

/-- The cell tokens of the example input of the source header, row by row. -/
def exampleInputRows : List (List String) :=
  [[".", "*", ".", ".", ".", ".", "*", ".", ".", "*", ".", ".", ".", "*", ".", ".", "*", "."],
   [".", ".", ".", ".", ".", ".", "*", ".", ".", ".", "*", "*", ".", ".", ".", ".", ".", "*"],
   [".", ".", "*", ".", ".", "*", ".", ".", ".", "*", ".", ".", ".", ".", ".", ".", ".", "*"],
   [".", "*", ".", ".", ".", ".", ".", ".", "*", ".", ".", ".", ".", ".", ".", ".", ".", "*"],
   [".", "*", "*", ".", ".", ".", ".", ".", ".", ".", "*", ".", ".", ".", ".", ".", ".", "."],
   [".", ".", ".", ".", "*", ".", ".", ".", ".", "*", ".", "*", "*", ".", ".", ".", ".", "."],
   [".", ".", ".", "*", "*", ".", ".", ".", ".", ".", "*", ".", ".", ".", ".", ".", ".", "*"],
   [".", "*", "*", "*", "*", ".", ".", "*", ".", "*", ".", "*", ".", ".", ".", ".", ".", "*"],
   [".", ".", "*", ".", ".", ".", "*", ".", "*", "*", ".", ".", ".", ".", ".", ".", ".", "."]]

/-- The token stream of the example input after the header `9 18 2`. -/
def exampleInput : List String :=
  exampleInputRows.flatten

/-- The lines of the example output of the source header. -/
def exampleOutputLines : List String :=
  [". . . . . . . . . * * . . . . . . .",
   ". . . . . . . . . . . * . . . . * *",
   ". . . . . . . . * . . . . . . . * *",
   ". * * . . . . . * . . * . . . . . .",
   ". * * * . . . . * * . * . . . . . .",
   ". * * * . . . . . . . * * . . . . .",
   ". . . * . * * . . * . . . . . . . .",
   ". * * . * * . * . . . . . . . . . .",
   ". * * . . . * * . * * . . . . . . ."]

/-- The example output as text: every line ended by a newline. -/
def exampleOutput : String :=
  exampleOutputLines.foldl (fun acc line => acc ++ line ++ "\n") ""

/-! ## Auxiliary notions of the proofs -/

/-- What one pass of the inner loop body adds to the count at column `j` of row `i`. -/
def colContribution (COLS : Int) (board : Board) (cell : Cell) (i j : Int) : Int :=
  if inBoundsJ COLS j then
    match boardAt board i j with
    | some neighbor => if neighbor.equals cell then 0 else if neighbor.isLive then 1 else 0
    | none => 0
  else 0

/-- What one pass of the outer loop body adds to the count at row `i`. -/
def rowContribution (ROWS COLS : Int) (board : Board) (cell : Cell) (js : List Int)
    (i : Int) : Int :=
  if inBoundsI ROWS i then (js.map (colContribution COLS board cell i)).sum else 0

/-- A board covers `[0, ROWS) × [0, COLS)` when every such position holds a cell; the
guarded lookups of the counting loops are then all defined. -/
def Covers (ROWS COLS : Int) (g : Board) : Prop :=
  ∀ i j : Int, 0 ≤ i → i < ROWS → 0 ≤ j → j < COLS → (boardAt g i j).isSome = true

/-- The coordinates of every cell of the board lie between `INT_MIN + 1` and
`INT_MAX - 2`: then `posI - 1`, `startingI + 2` and the increments of the counting loops,
which reach `posI + 2` and `posJ + 2`, are all values of `int`. -/
def CoordsInIntRange (g : Board) : Prop :=
  ∀ row ∈ g, ∀ cell ∈ row,
    INT_MIN + 1 ≤ cell.posI ∧ cell.posI ≤ INT_MAX - 2 ∧
      INT_MIN + 1 ≤ cell.posJ ∧ cell.posJ ≤ INT_MAX - 2

/-- The summand of the specification for the position `(i, j)`. -/
def liveTerm (ROWS COLS : Int) (g : Board) (i j : Int) : Int :=
  if decide (0 ≤ i ∧ i < ROWS ∧ 0 ≤ j ∧ j < COLS) && liveAt g i j then 1 else 0

/-- The relation between an old board and the board the step builds from it, cell by
cell: the new cell is what `getUpdatedCell` returns for the old one, read on `g`. -/
def StepRel (ROWS COLS : Int) (g : Board) : Board → Board → Prop :=
  List.Forall₂ (List.Forall₂ (fun o n => getUpdatedCell ROWS COLS g o = some n))

/-- The cell `getUpdatedCell` returns on a well-formed board, as a function of the old
cell: the rule applied to the Moore count at the cell's own coordinates. -/
def stepCell (ROWS COLS : Int) (g : Board) (cell : Cell) : Cell :=
  { cell with
    isLive := nextCellState cell.isLive (mooreLiveCount ROWS COLS g cell.posI cell.posJ : Nat) }

/-- The cell `getUpdatedCell` returns on a board that covers the grid. -/
def coveredStepCell (ROWS COLS : Int) (g : Board) (cell : Cell) : Cell :=
  { cell with
    isLive := nextCellState cell.isLive
      (([cell.posI - 1, cell.posI - 1 + 1, cell.posI - 1 + 2].map
        (rowContribution ROWS COLS g cell
          [cell.posJ - 1, cell.posJ - 1 + 1, cell.posJ - 1 + 2])).sum) }

/-- The cells of a (possibly unfinished) row `i` carry their coordinates. -/
def RowCoords (i : Int) (row : List Cell) : Prop :=
  ∀ (b : Nat) (cell : Cell), row[b]? = some cell → cell.posI = i ∧ cell.posJ = (b : Int)

/-! ## A small board for concrete instances -/

/-- The cell tokens of the vertical blinker on a 3 × 3 board. -/
def blinkerTokens : List String :=
  [".", "*", ".", ".", "*", ".", ".", "*", "."]

/-- The board the reading loop builds from the blinker tokens. -/
def blinkerBoard : Board :=
  readBoard 3 3 blinkerTokens

/-! ## Printed text and token streams -/

/-- The character `Cell::getDrawnCell` draws. -/
def drawnChar (cell : Cell) : Char :=
  if cell.isLive then '*' else '.'

/-- The characters of one printed line before its newline: the drawn characters of the
row with one space between consecutive ones. -/
def lineChars (row : List Cell) : List Char :=
  (row.map drawnChar).intersperse ' '

/-- The characters of the printed board: every line followed by one newline. -/
def printedChars (g : Board) : List Char :=
  (g.map fun row => lineChars row ++ ['\n']).flatten

/-- The live flag the reading loop gives cell `(i, j)` when rows have `C` cells: token
number `i * C + j` is `*`. -/
def tokenLive (C : Nat) (t : List String) (i j : Int) : Bool :=
  decide (t[(i * (C : Int) + j).toNat]? = some "*")

/-- The first `len` cells of row `i` of the board given by the live function `f`. -/
def rowStart (f : Int → Int → Bool) (i len : Nat) : List Cell :=
  (List.range len).map fun (j : Nat) =>
    ({ isLive := f (i : Int) (j : Int), posI := (i : Int), posJ := (j : Int) } : Cell)

/-- The positions `(i, j)` at which the loops of `getCellLiveNeighborCount` perform the
lookup `board[i][j]` for `cell`: the values of `i` and `j` that pass `inBoundsI` and
`inBoundsJ`, in loop order. -/
def neighborAccesses (ROWS COLS : Int) (cell : Cell) : List (Int × Int) :=
  ([cell.posI - 1, cell.posI - 1 + 1, cell.posI - 1 + 2].filter (inBoundsI ROWS)).flatMap
    fun i =>
      ([cell.posJ - 1, cell.posJ - 1 + 1, cell.posJ - 1 + 2].filter (inBoundsJ COLS)).map
        fun j => (i, j)

/-- The lookup `board[i][j]` is within range: `i` indexes a row of the board and `j` a
cell of that row. -/
def LookupInRange (g : Board) (i j : Int) : Prop :=
  0 ≤ i ∧ 0 ≤ j ∧ ∃ row, g[i.toNat]? = some row ∧ j.toNat < row.length

/-- Every cell stored on the board carries the coordinates of its position. -/
def CoordsMatch (g : Board) : Prop :=
  ∀ (i j : Int) (cell : Cell), boardAt g i j = some cell → cell.posI = i ∧ cell.posJ = j

/-- The whitespace characters that end a token of `std::cin >> input`: space, tab,
newline, vertical tab, form feed and carriage return. -/
def isSpace (ch : Char) : Bool :=
  ch.toNat = 32 || (9 ≤ ch.toNat && ch.toNat ≤ 13)

/-- Splitting a text into whitespace-delimited tokens, character by character; `cur`
holds the characters of the token being read. -/
def tokenizeLoop : List Char → List Char → List String
  | [], cur => if cur.isEmpty then [] else [String.mk cur]
  | ch :: rest, cur =>
    if isSpace ch then
      if cur.isEmpty then tokenizeLoop rest [] else String.mk cur :: tokenizeLoop rest []
    else tokenizeLoop rest (cur ++ [ch])

/-- The whitespace-delimited tokens of a text, in order. -/
def tokenize (text : String) : List String :=
  tokenizeLoop text.data []

/-- The left-right mirror image of a board as a well-formed `R × C` board: its cell
`(i, j)` has the live flag of the cell `(i, C - 1 - j)` of `g`. -/
def mirrorGrid (R C : Nat) (g : Board) : Board :=
  mkGrid R C fun i j => liveAt g i ((C : Int) - 1 - j)

/-! ## Lookups -/

theorem boardAt_eq_some_iff (g : Board) (i j : Int) (cell : Cell) :
    boardAt g i j = some cell ↔
      ∃ a b : Nat, i = a ∧ j = b ∧ ∃ row, g[a]? = some row ∧ row[b]? = some cell := by
  unfold boardAt
  constructor
  · intro h
    split at h
    · exact absurd h (by simp)
    · rename_i hneg
      have hi : 0 ≤ i := by omega
      have hj : 0 ≤ j := by omega
      refine ⟨i.toNat, j.toNat, (Int.toNat_of_nonneg hi).symm, (Int.toNat_of_nonneg hj).symm, ?_⟩
      cases hrow : g[i.toNat]? with
      | none => simp [hrow] at h
      | some row => exact ⟨row, rfl, by simpa [hrow] using h⟩
  · rintro ⟨a, b, rfl, rfl, row, hrow, hcell⟩
    have : ¬ ((a : Int) < 0 ∨ (b : Int) < 0) := by omega
    simp [this, hrow, hcell]

theorem boardAt_natCast (g : Board) (a b : Nat) :
    boardAt g (a : Int) (b : Int) = (g[a]?).bind (fun row => row[b]?) := by
  unfold boardAt
  have : ¬ ((a : Int) < 0 ∨ (b : Int) < 0) := by omega
  cases hrow : g[a]? <;> simp [this, hrow]

theorem WellFormed.boardAt_some {ROWS COLS : Int} {g : Board} (h : WellFormed ROWS COLS g)
    {i j : Int} (hi : 0 ≤ i) (hi' : i < ROWS) (hj : 0 ≤ j) (hj' : j < COLS) :
    ∃ cell, boardAt g i j = some cell ∧ cell.posI = i ∧ cell.posJ = j := by
  obtain ⟨hlen, hrows⟩ := h
  obtain ⟨a, rfl⟩ := Int.eq_ofNat_of_zero_le hi
  obtain ⟨b, rfl⟩ := Int.eq_ofNat_of_zero_le hj
  have ha : a < g.length := by omega
  obtain ⟨hrl, hcells⟩ := hrows ⟨a, ha⟩
  have hb : b < (g.get ⟨a, ha⟩).length := by omega
  obtain ⟨hI, hJ⟩ := hcells ⟨b, hb⟩
  refine ⟨(g.get ⟨a, ha⟩).get ⟨b, hb⟩, ?_, hI, hJ⟩
  rw [boardAt_natCast]
  simp [List.getElem?_eq_getElem ha, List.getElem?_eq_getElem hb]

theorem WellFormed.of_boardAt {ROWS COLS : Int} {g : Board} (h : WellFormed ROWS COLS g)
    {i j : Int} {cell : Cell} (hc : boardAt g i j = some cell) :
    0 ≤ i ∧ i < ROWS ∧ 0 ≤ j ∧ j < COLS ∧ cell.posI = i ∧ cell.posJ = j := by
  obtain ⟨hlen, hrows⟩ := h
  obtain ⟨a, b, rfl, rfl, row, hrow, hcell⟩ := (boardAt_eq_some_iff g i j cell).1 hc
  obtain ⟨ha, hrow'⟩ := List.getElem?_eq_some_iff.1 hrow
  obtain ⟨hrl, hcells⟩ := hrows ⟨a, ha⟩
  have hrow'' : g.get ⟨a, ha⟩ = row := hrow'
  rw [hrow''] at hrl hcells
  obtain ⟨hb, hcell'⟩ := List.getElem?_eq_some_iff.1 hcell
  obtain ⟨hI, hJ⟩ := hcells ⟨b, hb⟩
  have hcell'' : row.get ⟨b, hb⟩ = cell := hcell'
  rw [hcell''] at hI hJ
  refine ⟨by omega, by omega, by omega, by omega, hI, hJ⟩

theorem WellFormed.of_mem {ROWS COLS : Int} {g : Board} (h : WellFormed ROWS COLS g)
    {row : List Cell} (hrow : row ∈ g) {cell : Cell} (hcell : cell ∈ row) :
    boardAt g cell.posI cell.posJ = some cell := by
  obtain ⟨a, ha, hga⟩ := List.getElem_of_mem hrow
  obtain ⟨b, hb, hrb⟩ := List.getElem_of_mem hcell
  have hc : boardAt g (a : Int) (b : Int) = some cell := by
    rw [boardAt_natCast]
    simp [List.getElem?_eq_getElem ha, hga, List.getElem?_eq_getElem hb, hrb]
  obtain ⟨-, -, -, -, hI, hJ⟩ := h.of_boardAt hc
  rw [hI, hJ]; exact hc

/-! ## The counting loops -/

theorem neighborColLoop_eq (COLS : Int) (board : Board) (cell : Cell) (i : Int) :
    ∀ (js : List Int) (cnt : Int),
      (∀ j ∈ js, inBoundsJ COLS j = true → (boardAt board i j).isSome = true) →
      neighborColLoop COLS board cell i js cnt =
        some (cnt + (js.map (colContribution COLS board cell i)).sum)
  | [], cnt, _ => by simp [neighborColLoop]
  | j :: rest, cnt, h => by
    have hrest : ∀ j ∈ rest, inBoundsJ COLS j = true → (boardAt board i j).isSome = true :=
      fun j' hj' => h j' (List.mem_cons_of_mem _ hj')
    have hj := h j (List.mem_cons_self _ _)
    unfold neighborColLoop
    by_cases hb : inBoundsJ COLS j = true
    · obtain ⟨n, hn⟩ := Option.isSome_iff_exists.1 (hj hb)
      by_cases he : n.equals cell = true
      · simp [hb, hn, he, colContribution, neighborColLoop_eq COLS board cell i rest _ hrest]
      · by_cases hl : n.isLive = true
        · simp [hb, hn, he, hl, colContribution,
            neighborColLoop_eq COLS board cell i rest _ hrest, add_assoc]
        · simp [hb, hn, he, hl, colContribution,
            neighborColLoop_eq COLS board cell i rest _ hrest]
    · simp [hb, colContribution, neighborColLoop_eq COLS board cell i rest _ hrest]

theorem neighborRowLoop_eq (ROWS COLS : Int) (board : Board) (cell : Cell) (js : List Int) :
    ∀ (is : List Int) (cnt : Int),
      (∀ i ∈ is, inBoundsI ROWS i = true →
        ∀ j ∈ js, inBoundsJ COLS j = true → (boardAt board i j).isSome = true) →
      neighborRowLoop ROWS COLS board cell js is cnt =
        some (cnt + (is.map (rowContribution ROWS COLS board cell js)).sum)
  | [], cnt, _ => by simp [neighborRowLoop]
  | i :: rest, cnt, h => by
    have hrest : ∀ i ∈ rest, inBoundsI ROWS i = true →
        ∀ j ∈ js, inBoundsJ COLS j = true → (boardAt board i j).isSome = true :=
      fun i' hi' => h i' (List.mem_cons_of_mem _ hi')
    have hi := h i (List.mem_cons_self _ _)
    unfold neighborRowLoop
    by_cases hb : inBoundsI ROWS i = true
    · simp [hb, neighborColLoop_eq COLS board cell i js cnt (hi hb), rowContribution,
        neighborRowLoop_eq ROWS COLS board cell js rest _ hrest, add_assoc]
    · simp [hb, rowContribution, neighborRowLoop_eq ROWS COLS board cell js rest _ hrest]

theorem inBoundsI_iff (ROWS i : Int) : inBoundsI ROWS i = true ↔ 0 ≤ i ∧ i < ROWS := by
  unfold inBoundsI; split <;> simp <;> omega

theorem inBoundsJ_iff (COLS j : Int) : inBoundsJ COLS j = true ↔ 0 ≤ j ∧ j < COLS := by
  unfold inBoundsJ; split <;> simp <;> omega

theorem WellFormed.covers {ROWS COLS : Int} {g : Board} (h : WellFormed ROWS COLS g) :
    Covers ROWS COLS g := by
  intro i j hi hi' hj hj'
  obtain ⟨cell, hc, -⟩ := h.boardAt_some hi hi' hj hj'
  simp [hc]

theorem getCellLiveNeighborCount_eq {ROWS COLS : Int} {g : Board} (h : Covers ROWS COLS g)
    (cell : Cell) :
    getCellLiveNeighborCount ROWS COLS g cell =
      some (([cell.posI - 1, cell.posI - 1 + 1, cell.posI - 1 + 2].map
        (rowContribution ROWS COLS g cell
          [cell.posJ - 1, cell.posJ - 1 + 1, cell.posJ - 1 + 2])).sum) := by
  unfold getCellLiveNeighborCount
  simp only []
  rw [neighborRowLoop_eq]
  · simp
  · intro i _ hi j _ hj
    rw [inBoundsI_iff] at hi; rw [inBoundsJ_iff] at hj
    exact h i j hi.1 hi.2 hj.1 hj.2

theorem contribution_other {ROWS COLS : Int} {g : Board} (h : WellFormed ROWS COLS g)
    {cell : Cell} {r c : Int} (hI : cell.posI = r) (hJ : cell.posJ = c) (i j : Int)
    (hne : i ≠ r ∨ j ≠ c) :
    (if inBoundsI ROWS i then colContribution COLS g cell i j else 0) =
      liveTerm ROWS COLS g i j := by
  unfold liveTerm colContribution
  by_cases hi : inBoundsI ROWS i = true
  · by_cases hj : inBoundsJ COLS j = true
    · have hi' := (inBoundsI_iff _ _).1 hi
      have hj' := (inBoundsJ_iff _ _).1 hj
      obtain ⟨n, hn, hnI, hnJ⟩ := h.boardAt_some hi'.1 hi'.2 hj'.1 hj'.2
      have hneq : n.equals cell = false := by
        unfold Cell.equals
        rcases hne with hne | hne
        · have : ¬ n.posI = cell.posI := by rw [hnI, hI]; exact hne
          simp [this]
        · have : ¬ n.posJ = cell.posJ := by rw [hnJ, hJ]; exact hne
          simp [this]
      have hin : (0 ≤ i ∧ i < ROWS ∧ 0 ≤ j ∧ j < COLS) := ⟨hi'.1, hi'.2, hj'.1, hj'.2⟩
      simp [hi, hj, hn, hneq, liveAt, hin]
    · have hin : ¬ (0 ≤ i ∧ i < ROWS ∧ 0 ≤ j ∧ j < COLS) := by
        rw [inBoundsJ_iff] at hj; tauto
      simp [hi, hj, hin]
  · have hin : ¬ (0 ≤ i ∧ i < ROWS ∧ 0 ≤ j ∧ j < COLS) := by
      rw [inBoundsI_iff] at hi; tauto
    simp [hi, hin]

theorem contribution_self (ROWS COLS : Int) {g : Board} {cell : Cell} {r c : Int}
    (hc : boardAt g r c = some cell) :
    (if inBoundsI ROWS r then colContribution COLS g cell r c else 0) = 0 := by
  have : cell.equals cell = true := by simp [Cell.equals]
  unfold colContribution
  simp [hc, this]

theorem mooreLiveCount_eq_sum (ROWS COLS : Int) (g : Board) (r c : Int) :
    ((mooreLiveCount ROWS COLS g r c : Nat) : Int) =
      liveTerm ROWS COLS g (r - 1) (c - 1) + liveTerm ROWS COLS g (r - 1) c
        + liveTerm ROWS COLS g (r - 1) (c + 1) + liveTerm ROWS COLS g r (c - 1)
        + liveTerm ROWS COLS g r (c + 1) + liveTerm ROWS COLS g (r + 1) (c - 1)
        + liveTerm ROWS COLS g (r + 1) c + liveTerm ROWS COLS g (r + 1) (c + 1) := by
  unfold mooreLiveCount
  rw [List.countP_filter]
  simp only [neighbourOffsets, List.countP_cons, List.countP_nil, inGrid, liveTerm]
  simp only [Int.add_neg_one, add_zero, Nat.cast_add, Nat.cast_ite, Nat.cast_one, Nat.cast_zero,
    zero_add, Bool.and_comm]
  ring

theorem getCellLiveNeighborCount_wellFormed {ROWS COLS : Int} {g : Board}
    (h : WellFormed ROWS COLS g) {r c : Int} {cell : Cell} (hc : boardAt g r c = some cell) :
    getCellLiveNeighborCount ROWS COLS g cell =
      some ((mooreLiveCount ROWS COLS g r c : Nat) : Int) := by
  obtain ⟨-, -, -, -, hI, hJ⟩ := h.of_boardAt hc
  rw [getCellLiveNeighborCount_eq h.covers, mooreLiveCount_eq_sum, hI, hJ]
  have e1 : r - 1 + 1 = r := by ring
  have e2 : r - 1 + 2 = r + 1 := by ring
  have e3 : c - 1 + 1 = c := by ring
  have e4 : c - 1 + 2 = c + 1 := by ring
  rw [e1, e2, e3, e4]
  have key : ∀ i j, (i ≠ r ∨ j ≠ c) →
      (if inBoundsI ROWS i then colContribution COLS g cell i j else 0) =
        liveTerm ROWS COLS g i j := contribution_other h hI hJ
  have self := contribution_self ROWS COLS hc
  have k1 := key (r - 1) (c - 1) (Or.inl (by omega))
  have k2 := key (r - 1) c (Or.inl (by omega))
  have k3 := key (r - 1) (c + 1) (Or.inl (by omega))
  have k4 := key r (c - 1) (Or.inr (by omega))
  have k5 := key r (c + 1) (Or.inr (by omega))
  have k6 := key (r + 1) (c - 1) (Or.inl (by omega))
  have k7 := key (r + 1) c (Or.inl (by omega))
  have k8 := key (r + 1) (c + 1) (Or.inl (by omega))
  rw [← k1, ← k2, ← k3, ← k4, ← k5, ← k6, ← k7, ← k8]
  simp only [List.map_cons, List.map_nil, List.sum_cons, List.sum_nil, rowContribution]
  congr 1
  by_cases h1 : inBoundsI ROWS (r - 1) = true <;> by_cases h2 : inBoundsI ROWS r = true <;>
    by_cases h3 : inBoundsI ROWS (r + 1) = true <;>
    simp [h1, h2, h3] at self ⊢ <;> (try rw [self]) <;> ring

/-! ## The rule and the step -/

theorem getUpdatedCell_eq (ROWS COLS : Int) (g : Board) (cell : Cell) :
    getUpdatedCell ROWS COLS g cell =
      (getCellLiveNeighborCount ROWS COLS g cell).map
        (fun k => { cell with isLive := nextCellState cell.isLive k }) := by
  unfold getUpdatedCell nextCellState
  cases hk : getCellLiveNeighborCount ROWS COLS g cell with
  | none => rfl
  | some k =>
    obtain ⟨l, pi, pj⟩ := cell
    cases l
    · by_cases h3 : k = 3 <;> simp [h3]
    · by_cases h2 : k < 2
      · have h22 : ¬ k = 2 := by omega
        have h23 : ¬ k = 3 := by omega
        simp [h2, h22, h23]
      · by_cases h3 : k > 3
        · have h22 : ¬ k = 2 := by omega
          have h23 : ¬ k = 3 := by omega
          simp [h2, h3, h22, h23]
        · have : k = 2 ∨ k = 3 := by omega
          simp [h2, h3, this]

theorem applyRowLoop_some (ROWS COLS : Int) (g : Board) :
    ∀ (row acc out : List Cell), applyRowLoop ROWS COLS g row acc = some out →
      ∃ new, out = acc ++ new ∧
        List.Forall₂ (fun o n => getUpdatedCell ROWS COLS g o = some n) row new
  | [], acc, out, h => by
    simp [applyRowLoop] at h
    exact ⟨[], by simp [h], List.Forall₂.nil⟩
  | o :: rest, acc, out, h => by
    unfold applyRowLoop at h
    cases hu : getUpdatedCell ROWS COLS g o with
    | none => simp [hu] at h
    | some n =>
      simp only [hu] at h
      obtain ⟨new, hout, hrel⟩ := applyRowLoop_some ROWS COLS g rest _ out h
      exact ⟨n :: new, by simp [hout], List.Forall₂.cons hu hrel⟩

theorem applyBoardLoop_some (ROWS COLS : Int) (g : Board) :
    ∀ (rows acc out : Board), applyBoardLoop ROWS COLS g rows acc = some out →
      ∃ new, out = acc ++ new ∧ StepRel ROWS COLS g rows new
  | [], acc, out, h => by
    simp [applyBoardLoop] at h
    exact ⟨[], by simp [h], List.Forall₂.nil⟩
  | row :: rest, acc, out, h => by
    unfold applyBoardLoop at h
    cases hr : applyRowLoop ROWS COLS g row [] with
    | none => simp [hr] at h
    | some nrow =>
      simp only [hr] at h
      obtain ⟨new, hout, hrel⟩ := applyBoardLoop_some ROWS COLS g rest _ out h
      obtain ⟨nrow', hnrow, hrow⟩ := applyRowLoop_some ROWS COLS g row [] nrow hr
      simp only [List.nil_append] at hnrow
      subst hnrow
      exact ⟨nrow :: new, by simp [hout], List.Forall₂.cons hrow hrel⟩

theorem applyRulesetToGeneration_some {ROWS COLS : Int} {g g' : Board}
    (h : applyRulesetToGeneration ROWS COLS g = some g') : StepRel ROWS COLS g g g' := by
  obtain ⟨new, hout, hrel⟩ := applyBoardLoop_some ROWS COLS g g [] g' h
  simp only [List.nil_append] at hout
  subst hout; exact hrel

theorem applyRowLoop_map (ROWS COLS : Int) (g : Board) (u : Cell → Cell) :
    ∀ (row acc : List Cell), (∀ cell ∈ row, getUpdatedCell ROWS COLS g cell = some (u cell)) →
      applyRowLoop ROWS COLS g row acc = some (acc ++ row.map u)
  | [], acc, _ => by simp [applyRowLoop]
  | o :: rest, acc, h => by
    unfold applyRowLoop
    rw [h o (List.mem_cons_self _ _)]
    simp only
    rw [applyRowLoop_map ROWS COLS g u rest _ (fun c hc => h c (List.mem_cons_of_mem _ hc))]
    simp

theorem applyBoardLoop_map (ROWS COLS : Int) (g : Board) (u : Cell → Cell) :
    ∀ (rows acc : Board),
      (∀ row ∈ rows, ∀ cell ∈ row, getUpdatedCell ROWS COLS g cell = some (u cell)) →
      applyBoardLoop ROWS COLS g rows acc = some (acc ++ rows.map (List.map u))
  | [], acc, _ => by simp [applyBoardLoop]
  | row :: rest, acc, h => by
    unfold applyBoardLoop
    rw [applyRowLoop_map ROWS COLS g u row [] (h row (List.mem_cons_self _ _))]
    simp only [List.nil_append]
    rw [applyBoardLoop_map ROWS COLS g u rest _ (fun r hr => h r (List.mem_cons_of_mem _ hr))]
    simp

theorem applyRulesetToGeneration_map {ROWS COLS : Int} {g : Board} (u : Cell → Cell)
    (h : ∀ row ∈ g, ∀ cell ∈ row, getUpdatedCell ROWS COLS g cell = some (u cell)) :
    applyRulesetToGeneration ROWS COLS g = some (g.map (List.map u)) := by
  unfold applyRulesetToGeneration
  rw [applyBoardLoop_map ROWS COLS g u g [] h]
  simp

theorem getUpdatedCell_wellFormed {ROWS COLS : Int} {g : Board} (h : WellFormed ROWS COLS g)
    {r c : Int} {cell : Cell} (hc : boardAt g r c = some cell) :
    getUpdatedCell ROWS COLS g cell = some (stepCell ROWS COLS g cell) := by
  obtain ⟨-, -, -, -, hI, hJ⟩ := h.of_boardAt hc
  rw [getUpdatedCell_eq, getCellLiveNeighborCount_wellFormed h hc]
  simp [stepCell, hI, hJ]

theorem applyRulesetToGeneration_wellFormed {ROWS COLS : Int} {g : Board}
    (h : WellFormed ROWS COLS g) :
    applyRulesetToGeneration ROWS COLS g = some (g.map (List.map (stepCell ROWS COLS g))) :=
  applyRulesetToGeneration_map _ fun _ hrow _ hcell =>
    getUpdatedCell_wellFormed h (h.of_mem hrow hcell)

theorem WellFormed.map {ROWS COLS : Int} {g : Board} (h : WellFormed ROWS COLS g)
    (u : Cell → Cell) (hI : ∀ cell, (u cell).posI = cell.posI)
    (hJ : ∀ cell, (u cell).posJ = cell.posJ) :
    WellFormed ROWS COLS (g.map (List.map u)) := by
  obtain ⟨hlen, hrows⟩ := h
  refine ⟨by simpa using hlen, ?_⟩
  intro i
  have hi : (i : Nat) < g.length := by simpa using i.2
  obtain ⟨hrl, hcells⟩ := hrows ⟨i, hi⟩
  have hget : (g.map (List.map u)).get i = (g.get ⟨i, hi⟩).map u := by simp
  rw [hget]
  refine ⟨by simpa using hrl, ?_⟩
  intro j
  have hj : (j : Nat) < (g.get ⟨i, hi⟩).length := by simpa using j.2
  obtain ⟨h1, h2⟩ := hcells ⟨j, hj⟩
  have hget2 : ((g.get ⟨i, hi⟩).map u).get j = u ((g.get ⟨i, hi⟩).get ⟨j, hj⟩) := by simp
  rw [hget2, hI, hJ]
  exact ⟨h1, h2⟩

theorem boardAt_map (g : Board) (u : Cell → Cell) (i j : Int) :
    boardAt (g.map (List.map u)) i j = (boardAt g i j).map u := by
  unfold boardAt
  split
  · rfl
  · cases hrow : g[i.toNat]? with
    | none => simp [hrow]
    | some row => simp [hrow]

theorem stepRel_length {ROWS COLS : Int} {g a b : Board} (h : StepRel ROWS COLS g a b) :
    b.map List.length = a.map List.length := by
  induction h with
  | nil => rfl
  | cons hrow _ ih => simp [ih, hrow.length_eq]

theorem WellFormed.step {ROWS COLS : Int} {g : Board} (h : WellFormed ROWS COLS g) :
    WellFormed ROWS COLS (g.map (List.map (stepCell ROWS COLS g))) :=
  h.map _ (fun _ => rfl) (fun _ => rfl)

theorem iterateGenerations_wellFormed {ROWS COLS : Int} :
    ∀ (n : Nat) {g : Board}, WellFormed ROWS COLS g →
      ∃ g', iterateGenerations ROWS COLS n g = some g' ∧ WellFormed ROWS COLS g'
  | 0, g, h => ⟨g, rfl, h⟩
  | n + 1, g, h => by
    unfold iterateGenerations
    rw [applyRulesetToGeneration_wellFormed h]
    exact iterateGenerations_wellFormed n h.step

/-! ## The claims on the rule and the step -/

/-- Claim C1: on a well-formed board the step returns a board, and its cell at an in-bounds
position `(r, c)` is alive exactly when the old cell is alive with 2 or 3 live in-grid Moore
neighbours, or dead with exactly 3, the neighbours being counted on the old board. -/
theorem applyRulesetToGeneration_cell_rule (ROWS COLS : Int) (g : Board)
    (hwf : WellFormed ROWS COLS g) (r c : Int)
    (hr : 0 ≤ r) (hr' : r < ROWS) (hc : 0 ≤ c) (hc' : c < COLS) :
    ∃ g' cell', applyRulesetToGeneration ROWS COLS g = some g' ∧
      boardAt g' r c = some cell' ∧
      (cell'.isLive = true ↔
        (liveAt g r c = true ∧
            (mooreLiveCount ROWS COLS g r c = 2 ∨ mooreLiveCount ROWS COLS g r c = 3)) ∨
          (liveAt g r c = false ∧ mooreLiveCount ROWS COLS g r c = 3)) := by
  obtain ⟨cell, hcell, hI, hJ⟩ := hwf.boardAt_some hr hr' hc hc'
  refine ⟨_, stepCell ROWS COLS g cell, applyRulesetToGeneration_wellFormed hwf, ?_, ?_⟩
  · rw [boardAt_map, hcell]; rfl
  · have hl : liveAt g r c = cell.isLive := by simp [liveAt, hcell]
    rw [hl]
    simp only [stepCell, nextCellState, hI, hJ]
    cases cell.isLive
    · simp
      omega
    · simp
      omega

/-- The step rule at position `(1, 0)` of the blinker board. -/
theorem applyRulesetToGeneration_cell_rule_witness :
    WellFormed 3 3 blinkerBoard ∧
      ∃ g' cell', applyRulesetToGeneration 3 3 blinkerBoard = some g' ∧
        boardAt g' 1 0 = some cell' ∧
        (cell'.isLive = true ↔
          (liveAt blinkerBoard 1 0 = true ∧
              (mooreLiveCount 3 3 blinkerBoard 1 0 = 2 ∨
                mooreLiveCount 3 3 blinkerBoard 1 0 = 3)) ∨
            (liveAt blinkerBoard 1 0 = false ∧ mooreLiveCount 3 3 blinkerBoard 1 0 = 3)) :=
  ⟨by decide,
    applyRulesetToGeneration_cell_rule 3 3 blinkerBoard (by decide) 1 0
      (by decide) (by decide) (by decide) (by decide)⟩

/-- Claim C2: whenever the neighbour count of `cell` on `board` is `k`, `getUpdatedCell`
returns a cell, and its live flag follows the rule: a live cell dies for `k ∈ {0, 1}` and
for `k > 3` and stays alive for `k ∈ {2, 3}`; a dead cell becomes alive for `k = 3` and
stays dead otherwise. -/
theorem getUpdatedCell_rule (ROWS COLS : Int) (board : Board) (cell : Cell) (k : Int)
    (hk : getCellLiveNeighborCount ROWS COLS board cell = some k) :
    ∃ cell', getUpdatedCell ROWS COLS board cell = some cell' ∧
      (cell.isLive = true → (k = 0 ∨ k = 1) → cell'.isLive = false) ∧
      (cell.isLive = true → (k = 2 ∨ k = 3) → cell'.isLive = true) ∧
      (cell.isLive = true → k > 3 → cell'.isLive = false) ∧
      (cell.isLive = false → k = 3 → cell'.isLive = true) ∧
      (cell.isLive = false → k ≠ 3 → cell'.isLive = false) := by
  refine ⟨_, by rw [getUpdatedCell_eq, hk]; rfl, ?_⟩
  simp only [nextCellState]
  refine ⟨?_, ?_, ?_, ?_, ?_⟩
  · intro hl hk'; simp [hl]; omega
  · intro hl hk'; simp [hl]; omega
  · intro hl hk'; simp [hl]; omega
  · intro hl hk'; simp [hl, hk']
  · intro hl hk'; simp [hl, hk']

/-- The rule for the live centre cell of the blinker board, whose count is 2. -/
theorem getUpdatedCell_rule_witness :
    getCellLiveNeighborCount 3 3 blinkerBoard { isLive := true, posI := 1, posJ := 1 } = some 2 ∧
      ∃ cell', getUpdatedCell 3 3 blinkerBoard { isLive := true, posI := 1, posJ := 1 } =
          some cell' ∧
        ((true = true) → ((2 : Int) = 0 ∨ (2 : Int) = 1) → cell'.isLive = false) ∧
        ((true = true) → ((2 : Int) = 2 ∨ (2 : Int) = 3) → cell'.isLive = true) ∧
        ((true = true) → (2 : Int) > 3 → cell'.isLive = false) ∧
        ((true = false) → (2 : Int) = 3 → cell'.isLive = true) ∧
        ((true = false) → (2 : Int) ≠ 3 → cell'.isLive = false) :=
  ⟨by decide,
    getUpdatedCell_rule 3 3 blinkerBoard { isLive := true, posI := 1, posJ := 1 } 2
      (by decide)⟩

/-- Claim C3: on a well-formed board, for the cell stored at a position `(r, c)` of the
board (which is then in bounds, see `WellFormed.of_boardAt`), `getCellLiveNeighborCount`
returns the number of live cells among those of the eight
positions `(r + dr, c + dc)`, `(dr, dc) ≠ (0, 0)`, that lie in `[0, ROWS) × [0, COLS)`. -/
theorem getCellLiveNeighborCount_moore (ROWS COLS : Int) (g : Board)
    (hwf : WellFormed ROWS COLS g) (r c : Int)
    (cell : Cell) (hcell : boardAt g r c = some cell) :
    getCellLiveNeighborCount ROWS COLS g cell =
      some ((mooreLiveCount ROWS COLS g r c : Nat) : Int) :=
  getCellLiveNeighborCount_wellFormed hwf hcell

/-- The count of the dead cell at `(1, 0)` of the blinker board. -/
theorem getCellLiveNeighborCount_moore_witness :
    WellFormed 3 3 blinkerBoard ∧
      boardAt blinkerBoard 1 0 = some { isLive := false, posI := 1, posJ := 0 } ∧
      getCellLiveNeighborCount 3 3 blinkerBoard { isLive := false, posI := 1, posJ := 0 } =
        some ((mooreLiveCount 3 3 blinkerBoard 1 0 : Nat) : Int) :=
  ⟨by decide, by decide,
    getCellLiveNeighborCount_moore 3 3 blinkerBoard (by decide) 1 0
      { isLive := false, posI := 1, posJ := 0 } (by decide)⟩

theorem liveTerm_out (ROWS COLS : Int) (g : Board) (i j : Int)
    (h : ¬ (0 ≤ i ∧ i < ROWS ∧ 0 ≤ j ∧ j < COLS)) : liveTerm ROWS COLS g i j = 0 := by
  simp [liveTerm, h]

theorem liveTerm_in (ROWS COLS : Int) (g : Board) (i j : Int)
    (h : 0 ≤ i ∧ i < ROWS ∧ 0 ≤ j ∧ j < COLS) :
    liveTerm ROWS COLS g i j = if liveAt g i j then 1 else 0 := by
  simp [liveTerm, h]

theorem corner_count_eq {ROWS COLS : Int} {g : Board} (hwf : WellFormed ROWS COLS g)
    (hR : 2 ≤ ROWS) (hC : 2 ≤ COLS) {cell : Cell} (hcell : boardAt g 0 0 = some cell) :
    getCellLiveNeighborCount ROWS COLS g cell =
      some (((([(0, 1), (1, 0), (1, 1)] : List (Int × Int)).countP
        (fun p => liveAt g p.1 p.2) : Nat)) : Int) := by
  rw [getCellLiveNeighborCount_wellFormed hwf hcell, mooreLiveCount_eq_sum]
  rw [liveTerm_out _ _ _ (0 - 1) (0 - 1) (by omega), liveTerm_out _ _ _ (0 - 1) 0 (by omega),
    liveTerm_out _ _ _ (0 - 1) (0 + 1) (by omega), liveTerm_out _ _ _ 0 (0 - 1) (by omega),
    liveTerm_out _ _ _ (0 + 1) (0 - 1) (by omega),
    liveTerm_in _ _ _ 0 (0 + 1) (by omega), liveTerm_in _ _ _ (0 + 1) 0 (by omega),
    liveTerm_in _ _ _ (0 + 1) (0 + 1) (by omega)]
  simp only [List.countP_cons, List.countP_nil, Nat.cast_add, Nat.cast_ite, Nat.cast_one,
    Nat.cast_zero, zero_add]
  congr 1
  ring

/-- Claim C4: on a well-formed board with at least two rows and two columns, the count of
the cell at `(0, 0)` is the number of live cells among `(0, 1)`, `(1, 0)` and `(1, 1)`;
so for `ROWS, COLS > 2` two well-formed boards that agree outside the last row and the
last column give the same count at `(0, 0)`. -/
theorem corner_neighbor_count (ROWS COLS : Int) (g : Board)
    (hwf : WellFormed ROWS COLS g) (hR : 2 ≤ ROWS) (hC : 2 ≤ COLS)
    (cell : Cell) (hcell : boardAt g 0 0 = some cell) :
    getCellLiveNeighborCount ROWS COLS g cell =
        some (((([(0, 1), (1, 0), (1, 1)] : List (Int × Int)).countP
          (fun p => liveAt g p.1 p.2) : Nat)) : Int) ∧
      ∀ (g2 : Board) (cell2 : Cell), WellFormed ROWS COLS g2 → boardAt g2 0 0 = some cell2 →
        2 < ROWS → 2 < COLS →
        (∀ i j : Int, i < ROWS - 1 → j < COLS - 1 → liveAt g2 i j = liveAt g i j) →
        getCellLiveNeighborCount ROWS COLS g2 cell2 =
          getCellLiveNeighborCount ROWS COLS g cell := by
  refine ⟨corner_count_eq hwf hR hC hcell, ?_⟩
  intro g2 cell2 hwf2 hcell2 hR2 hC2 hagree
  rw [corner_count_eq hwf hR hC hcell, corner_count_eq hwf2 hR hC hcell2]
  simp only [List.countP_cons, List.countP_nil]
  rw [hagree 0 1 (by omega) (by omega), hagree 1 0 (by omega) (by omega),
    hagree 1 1 (by omega) (by omega)]

/-- The corner count on the blinker board. -/
theorem corner_neighbor_count_witness :
    WellFormed 3 3 blinkerBoard ∧
      getCellLiveNeighborCount 3 3 blinkerBoard { isLive := false, posI := 0, posJ := 0 } =
        some (((([(0, 1), (1, 0), (1, 1)] : List (Int × Int)).countP
          (fun p => liveAt blinkerBoard p.1 p.2) : Nat)) : Int) :=
  ⟨by decide,
    (corner_neighbor_count 3 3 blinkerBoard (by decide) (by decide) (by decide)
      { isLive := false, posI := 0, posJ := 0 } (by decide)).1⟩

/-- The step of the embedding on a board that covers the grid; it describes the source
for cell coordinates within the range of `int` arithmetic (`CoordsInIntRange`). -/
theorem applyRulesetToGeneration_covers {ROWS COLS : Int} {g : Board}
    (h : Covers ROWS COLS g) :
    applyRulesetToGeneration ROWS COLS g =
      some (g.map (List.map (coveredStepCell ROWS COLS g))) :=
  applyRulesetToGeneration_map _ fun _ _ cell _ => by
    rw [getUpdatedCell_eq, getCellLiveNeighborCount_eq h]; rfl

/-- Claim C5: whenever the step returns a board, it has as many rows as the old board and
row `i` has as many cells as the old row `i`; the step does return a board when the old
board covers `[0, ROWS) × [0, COLS)` and the coordinates of its cells lie between
`INT_MIN + 1` and `INT_MAX - 2`; and from a well-formed `ROWS × COLS` board every number
of generations returns a board with `ROWS` rows of `COLS` cells. -/
theorem applyRulesetToGeneration_dimensions (ROWS COLS : Int) (g : Board) :
    (∀ g', applyRulesetToGeneration ROWS COLS g = some g' →
        g'.length = g.length ∧
          ∀ i : Nat, (g'[i]?).map List.length = (g[i]?).map List.length) ∧
      (Covers ROWS COLS g → CoordsInIntRange g →
        ∃ g', applyRulesetToGeneration ROWS COLS g = some g') ∧
      (WellFormed ROWS COLS g → ∀ n : Nat, ∃ g', iterateGenerations ROWS COLS n g = some g' ∧
        (g'.length : Int) = ROWS ∧ ∀ row ∈ g', (row.length : Int) = COLS) := by
  refine ⟨?_, ?_, ?_⟩
  · intro g' h
    have hrel := applyRulesetToGeneration_some h
    have hmap := stepRel_length hrel
    refine ⟨hrel.length_eq.symm, fun i => ?_⟩
    have := congrArg (fun l => l[i]?) hmap
    simpa [List.getElem?_map] using this
  · intro h _
    exact ⟨_, applyRulesetToGeneration_covers h⟩
  · intro h n
    obtain ⟨g', hg', hwf'⟩ := iterateGenerations_wellFormed n h
    refine ⟨g', hg', hwf'.1, ?_⟩
    intro row hrow
    obtain ⟨a, ha, hga⟩ := List.getElem_of_mem hrow
    have := (hwf'.2 ⟨a, ha⟩).1
    rw [← hga]; exact this

/-- Two generations of the blinker board keep its 3 × 3 shape. -/
theorem applyRulesetToGeneration_dimensions_witness :
    WellFormed 3 3 blinkerBoard ∧
      ∃ g', iterateGenerations 3 3 2 blinkerBoard = some g' ∧
        (g'.length : Int) = 3 ∧ ∀ row ∈ g', (row.length : Int) = 3 :=
  ⟨by decide, (applyRulesetToGeneration_dimensions 3 3 blinkerBoard).2.2 (by decide) 2⟩

/-! ## Boards given by a live function -/

theorem boardAt_mkGrid (R C : Nat) (f : Int → Int → Bool) (i j : Int) :
    boardAt (mkGrid R C f) i j =
      if 0 ≤ i ∧ i < R ∧ 0 ≤ j ∧ j < C then
        some { isLive := f i j, posI := i, posJ := j }
      else none := by
  by_cases hi : 0 ≤ i
  · by_cases hj : 0 ≤ j
    · obtain ⟨a, rfl⟩ := Int.eq_ofNat_of_zero_le hi
      obtain ⟨b, rfl⟩ := Int.eq_ofNat_of_zero_le hj
      rw [boardAt_natCast]
      by_cases ha : a < R
      · by_cases hb : b < C
        · simp [mkGrid, List.getElem?_range, ha, hb]
        · have hb' : C ≤ b := by omega
          simp [mkGrid, List.getElem?_range, ha, hb, hb']
      · have hnone : (mkGrid R C f)[a]? = none := by
          apply List.getElem?_eq_none
          simp only [mkGrid, List.length_map, List.length_range]
          omega
        simp [hnone, ha]
    · have : ¬ (0 ≤ i ∧ i < R ∧ 0 ≤ j ∧ j < C) := by omega
      have h2 : i < 0 ∨ j < 0 := by omega
      simp [boardAt, this, h2]
  · have : ¬ (0 ≤ i ∧ i < R ∧ 0 ≤ j ∧ j < C) := by omega
    have h2 : i < 0 ∨ j < 0 := by omega
    simp [boardAt, this, h2]

theorem liveAt_mkGrid (R C : Nat) (f : Int → Int → Bool) (i j : Int) :
    liveAt (mkGrid R C f) i j = (decide (0 ≤ i ∧ i < R ∧ 0 ≤ j ∧ j < C) && f i j) := by
  unfold liveAt
  rw [boardAt_mkGrid]
  by_cases h : 0 ≤ i ∧ i < R ∧ 0 ≤ j ∧ j < C <;> simp [h]

theorem wellFormed_mkGrid (R C : Nat) (f : Int → Int → Bool) :
    WellFormed (R : Int) (C : Int) (mkGrid R C f) := by
  refine ⟨by simp [mkGrid], ?_⟩
  intro i
  refine ⟨by simp [mkGrid], ?_⟩
  intro j
  simp [mkGrid]

theorem mem_mkGrid {R C : Nat} {f : Int → Int → Bool} {row : List Cell}
    (hrow : row ∈ mkGrid R C f) {cell : Cell} (hcell : cell ∈ row) :
    ∃ i j : Int, 0 ≤ i ∧ i < R ∧ 0 ≤ j ∧ j < C ∧
      cell = { isLive := f i j, posI := i, posJ := j } := by
  simp only [mkGrid, List.mem_map, List.mem_range] at hrow
  obtain ⟨a, ha, rfl⟩ := hrow
  simp only [List.mem_map, List.mem_range] at hcell
  obtain ⟨b, hb, rfl⟩ := hcell
  exact ⟨a, b, by omega, by omega, by omega, by omega, rfl⟩

theorem liveTerm_mkGrid (R C : Nat) (f : Int → Int → Bool) (i j : Int) :
    liveTerm (R : Int) (C : Int) (mkGrid R C f) i j =
      if (0 ≤ i ∧ i < R ∧ 0 ≤ j ∧ j < C) ∧ f i j = true then 1 else 0 := by
  unfold liveTerm
  rw [liveAt_mkGrid]
  by_cases h : 0 ≤ i ∧ i < R ∧ 0 ≤ j ∧ j < C <;> simp [h]

/-- On a board given by a live function that the rule leaves unchanged at every position,
the step returns the board itself. -/
theorem applyRulesetToGeneration_fixed (R C : Nat) (f : Int → Int → Bool)
    (hfix : ∀ i j : Int, 0 ≤ i → i < R → 0 ≤ j → j < C →
      nextCellState (f i j) ((mooreLiveCount R C (mkGrid R C f) i j : Nat) : Int) = f i j) :
    applyRulesetToGeneration R C (mkGrid R C f) = some (mkGrid R C f) := by
  rw [applyRulesetToGeneration_wellFormed (wellFormed_mkGrid R C f)]
  congr 1
  conv_rhs => rw [← List.map_id (mkGrid R C f)]
  apply List.map_congr_left
  intro row hrow
  conv_rhs => rw [id, ← List.map_id row]
  apply List.map_congr_left
  intro cell hcell
  obtain ⟨i, j, hi, hi', hj, hj', rfl⟩ := mem_mkGrid hrow hcell
  simp only [stepCell, id]
  rw [hfix i j hi hi' hj hj']

theorem block_fixed (R C : Nat) (r c : Int) (hr : 0 ≤ r) (hr' : r + 1 < R)
    (hc : 0 ≤ c) (hc' : c + 1 < C) (i j : Int)
    (hi : 0 ≤ i) (hi' : i < R) (hj : 0 ≤ j) (hj' : j < C) :
    nextCellState (decide ((i = r ∨ i = r + 1) ∧ (j = c ∨ j = c + 1)))
        ((mooreLiveCount R C (blockGrid R C r c) i j : Nat) : Int) =
      decide ((i = r ∨ i = r + 1) ∧ (j = c ∨ j = c + 1)) := by
  rw [mooreLiveCount_eq_sum]
  unfold blockGrid
  simp only [liveTerm_mkGrid, decide_eq_true_eq]
  unfold nextCellState
  rcases (by omega : i + 1 < r ∨ i + 1 = r ∨ i = r ∨ i = r + 1 ∨ i = r + 2 ∨ r + 2 < i) with
      h | h | h | h | h | h <;>
    rcases (by omega : j + 1 < c ∨ j + 1 = c ∨ j = c ∨ j = c + 1 ∨ j = c + 2 ∨ c + 2 < j) with
      h' | h' | h' | h' | h' | h' <;>
    simp (disch := omega) only [if_pos, if_neg] <;>
    simp <;> omega

/-- Claim C6: for a position `(r, c)` with `r + 1 < ROWS` and `c + 1 < COLS` (so
`ROWS, COLS ≥ 2`), the board whose live cells are exactly the block `(r, c)`, `(r, c + 1)`,
`(r + 1, c)`, `(r + 1, c + 1)` is well formed, and any number of generations returns that
same board. -/
theorem block_still_life (R C : Nat) (r c : Int) (hr : 0 ≤ r) (hr' : r + 1 < R)
    (hc : 0 ≤ c) (hc' : c + 1 < C) :
    WellFormed R C (blockGrid R C r c) ∧
      (∀ i j : Int, liveAt (blockGrid R C r c) i j = true ↔
        (i = r ∨ i = r + 1) ∧ (j = c ∨ j = c + 1)) ∧
      ∀ n : Nat, iterateGenerations R C n (blockGrid R C r c) = some (blockGrid R C r c) := by
  refine ⟨wellFormed_mkGrid _ _ _, ?_, ?_⟩
  · intro i j
    unfold blockGrid
    rw [liveAt_mkGrid]
    simp only [Bool.and_eq_true, decide_eq_true_eq]
    constructor
    · exact fun h => h.2
    · exact fun h => ⟨by omega, h⟩
  · have hstep : applyRulesetToGeneration R C (blockGrid R C r c) =
        some (blockGrid R C r c) :=
      applyRulesetToGeneration_fixed R C _ (block_fixed R C r c hr hr' hc hc')
    intro n
    induction n with
    | zero => rfl
    | succ n ih =>
      unfold iterateGenerations
      rw [hstep]
      exact ih

/-- The block at `(1, 1)` of a 4 × 4 board after five generations. -/
theorem block_still_life_witness :
    iterateGenerations 4 4 5 (blockGrid 4 4 1 1) = some (blockGrid 4 4 1 1) :=
  (block_still_life 4 4 1 1 (by decide) (by decide) (by decide) (by decide)).2.2 5

/-! ## The reading loop -/

theorem wellFormed_iff (ROWS COLS : Int) (g : Board) :
    WellFormed ROWS COLS g ↔
      (g.length : Int) = ROWS ∧
        ∀ (a : Nat) (row : List Cell), g[a]? = some row →
          (row.length : Int) = COLS ∧ RowCoords a row := by
  unfold WellFormed RowCoords
  constructor
  · rintro ⟨hlen, h⟩
    refine ⟨hlen, ?_⟩
    intro a row hrow
    obtain ⟨ha, hga⟩ := List.getElem?_eq_some_iff.1 hrow
    obtain ⟨h1, h2⟩ := h ⟨a, ha⟩
    have e : g.get ⟨a, ha⟩ = row := hga
    rw [e] at h1 h2
    refine ⟨h1, ?_⟩
    intro b cell hcell
    obtain ⟨hb, hrb⟩ := List.getElem?_eq_some_iff.1 hcell
    have e2 : row.get ⟨b, hb⟩ = cell := hrb
    have := h2 ⟨b, hb⟩
    rw [e2] at this
    exact this
  · rintro ⟨hlen, h⟩
    refine ⟨hlen, ?_⟩
    intro i
    obtain ⟨h1, h2⟩ := h i (g.get i) (by simp [List.getElem?_eq_getElem i.2])
    refine ⟨h1, ?_⟩
    intro j
    exact h2 j _ (by simp [List.getElem?_eq_getElem j.2])

theorem RowCoords.push {i : Int} {row : List Cell} (h : RowCoords i row) (l : Bool) :
    RowCoords i (row ++ [{ isLive := l, posI := i, posJ := (row.length : Int) }]) := by
  intro b cell hcell
  by_cases hb : b < row.length
  · rw [List.getElem?_append_left hb] at hcell
    exact h b cell hcell
  · rw [List.getElem?_append_right (by omega)] at hcell
    by_cases hb0 : b - row.length = 0
    · have hbe : b = row.length := by omega
      rw [hb0] at hcell
      simp at hcell
      subst hcell
      exact ⟨rfl, by simp [hbe]⟩
    · obtain ⟨k, hk⟩ := Nat.exists_eq_succ_of_ne_zero hb0
      rw [hk] at hcell
      simp at hcell

theorem wellFormed_push {n COLS : Int} {board : Board} (h : WellFormed n COLS board)
    (row : List Cell) (hlen : (row.length : Int) = COLS) (hrow : RowCoords n row) :
    WellFormed (n + 1) COLS (board ++ [row]) := by
  rw [wellFormed_iff] at h ⊢
  obtain ⟨hl, hrows⟩ := h
  refine ⟨by simp [hl], ?_⟩
  intro a r hr
  by_cases ha : a < board.length
  · rw [List.getElem?_append_left ha] at hr
    exact hrows a r hr
  · rw [List.getElem?_append_right (by omega)] at hr
    by_cases ha0 : a - board.length = 0
    · have hae : (a : Int) = n := by omega
      rw [ha0] at hr
      simp at hr
      subst hr
      rw [hae]
      exact ⟨hlen, hrow⟩
    · obtain ⟨k, hk⟩ := Nat.exists_eq_succ_of_ne_zero ha0
      rw [hk] at hr
      simp at hr

/-- With enough tokens left, the reading loop ends with a well-formed board: `k` is the
number of rows still to be started after the current one. -/
theorem readLoop_wellFormed (R C : Nat) (hC : 1 ≤ C) :
    ∀ (tokens : List String) (board : Board) (cellRowArray : List Cell) (rowCount : Nat)
      (k : Nat), R = rowCount + 1 + k → WellFormed (rowCount : Int) (C : Int) board →
      cellRowArray.length < C → RowCoords (rowCount : Int) cellRowArray →
      k * C + (C - cellRowArray.length) ≤ tokens.length →
      WellFormed (R : Int) (C : Int)
        (readLoop (R : Int) (C : Int) tokens board cellRowArray (rowCount : Int))
  | [], board, cellRowArray, rowCount, k, _, _, hlt, _, htok => by
    simp at htok
    omega
  | input :: rest, board, cellRowArray, rowCount, k, hR, hwf, hlt, hrow, htok => by
    unfold readLoop
    simp only
    have hpush := hrow.push (if input = "*" then true else false)
    by_cases hcol : (cellRowArray.length : Int) ≥ (C : Int) - 1
    · have hfull : cellRowArray.length + 1 = C := by omega
      have hwf' := wellFormed_push hwf
        (cellRowArray ++
          [{ isLive := if input = "*" then true else false, posI := (rowCount : Int),
             posJ := (cellRowArray.length : Int) }])
        (by simp; omega) hpush
      rw [if_pos hcol]
      by_cases hdone : (rowCount : Int) + 1 ≥ (R : Int)
      · rw [if_pos hdone]
        have : (R : Int) = (rowCount : Int) + 1 := by omega
        rw [this]; exact hwf'
      · rw [if_neg hdone]
        obtain ⟨k', rfl⟩ : ∃ k', k = k' + 1 := ⟨k - 1, by omega⟩
        have hmul : (k' + 1) * C = k' * C + C := Nat.succ_mul k' C
        have := readLoop_wellFormed R C hC rest _ [] (rowCount + 1) k' (by omega)
          (by simpa using hwf') (by simpa using hC) (by intro b cell h; simp at h)
          (by simp at htok ⊢; omega)
        simpa using this
    · rw [if_neg hcol]
      have hnd : ¬ ((rowCount : Int) ≥ (R : Int)) := by omega
      rw [if_neg hnd]
      exact readLoop_wellFormed R C hC rest board _ rowCount k hR hwf
        (by simp; omega) hpush (by simp at htok ⊢; omega)

theorem readBoard_wellFormed (R C : Nat) (hR : 1 ≤ R) (hC : 1 ≤ C) (tokens : List String)
    (htok : R * C ≤ tokens.length) :
    WellFormed (R : Int) (C : Int) (readBoard (R : Int) (C : Int) tokens) := by
  unfold readBoard
  obtain ⟨k, rfl⟩ : ∃ k, R = k + 1 := ⟨R - 1, by omega⟩
  have hmul : (k + 1) * C = k * C + C := Nat.succ_mul k C
  have := readLoop_wellFormed (k + 1) C hC tokens [] [] 0 k (by omega)
    ⟨rfl, fun i => i.elim0⟩ (by simpa using hC) (by intro b cell h; simp at h) (by simp; omega)
  simpa using this

/-! ## The generation loop and the program -/

/-- Fuel beyond the number of iterations the loop condition allows changes nothing. -/
theorem generationLoop_fuel (ROWS COLS MAX_GENERATIONS : Int) :
    ∀ (fuel extra : Nat) (i : Int) (board : Board) (out : String),
      (MAX_GENERATIONS + 1 - i).toNat ≤ fuel →
      generationLoop ROWS COLS MAX_GENERATIONS (fuel + extra) i board out =
        generationLoop ROWS COLS MAX_GENERATIONS fuel i board out
  | 0, 0, _, _, _, _ => rfl
  | 0, extra + 1, i, board, out, h => by
    have hi : ¬ i ≤ MAX_GENERATIONS := by omega
    simp [generationLoop, hi]
  | fuel + 1, extra, i, board, out, h => by
    have e : fuel + 1 + extra = (fuel + extra) + 1 := by omega
    rw [e]
    unfold generationLoop
    by_cases hi : i ≤ MAX_GENERATIONS
    · simp only [hi, if_true]
      cases applyRulesetToGeneration ROWS COLS board with
      | none => rfl
      | some board' =>
        simp only
        by_cases ho : i + 1 > INT_MAX
        · simp only [ho, if_true]
        · simp only [ho, if_false]
          exact generationLoop_fuel ROWS COLS MAX_GENERATIONS fuel extra (i + 1) board' _
            (by omega)
    · simp [hi]

theorem main_zero (ROWS COLS : Int) (tokens : List String) :
    main ROWS COLS 0 tokens = some "" := by
  simp [main, generationLoop]

/-- With `MAX_GENERATIONS = INT_MAX` the loop condition never fails before the counter is
incremented at `INT_MAX`: on a well-formed board the loop leaves defined behaviour. -/
theorem generationLoop_overflow (ROWS COLS : Int) :
    ∀ (fuel : Nat) (i : Int) (board : Board) (out : String),
      WellFormed ROWS COLS board → ((fuel : Nat) : Int) + 1 = INT_MAX + 1 - i →
      generationLoop ROWS COLS INT_MAX (fuel + 1) i board out = none
  | fuel, i, board, out, hwf, hf => by
    unfold generationLoop
    have hi : i ≤ INT_MAX := by omega
    rw [applyRulesetToGeneration_wellFormed hwf]
    simp only [hi, if_true]
    by_cases ho : i + 1 > INT_MAX
    · simp only [ho, if_true]
    · simp only [ho, if_false]
      obtain ⟨k, rfl⟩ : ∃ k, fuel = k + 1 := ⟨fuel - 1, by omega⟩
      exact generationLoop_overflow ROWS COLS k (i + 1) _ _ hwf.step
        (by push_cast at hf ⊢; omega)

/-- The bound `MAX_GENERATIONS < INT_MAX` is needed: for `MAX_GENERATIONS = INT_MAX` and a
complete input the run leaves defined behaviour at the last increment of the counter. -/
theorem main_generation_counter_overflow (ROWS COLS : Nat) (tokens : List String)
    (hR : 1 ≤ ROWS) (hC : 1 ≤ COLS) (htok : ROWS * COLS ≤ tokens.length) :
    main ROWS COLS INT_MAX tokens = none := by
  unfold main
  have hfuel : INT_MAX.toNat = 2147483646 + 1 := by decide
  rw [hfuel, generationLoop_overflow ROWS COLS 2147483646 1 _ ""
    (readBoard_wellFormed ROWS COLS hR hC tokens htok) (by decide)]

/-- Claim C7, on the code: with `MAX_GENERATIONS = 0` the program writes nothing, although
the board read from the input prints as two lines. -/
theorem main_zero_generations_output :
    main 2 2 0 ["*", ".", ".", "*"] = some "" ∧
      printBoard (readBoard 2 2 ["*", ".", ".", "*"]) = "* .\n. *\n" := by
  decide

/-- Claim C9: on the input `3 3 1` with the vertical blinker, the program writes the three
lines `. . .`, `* * *`, `. . .`, each ended by a newline. -/
theorem main_blinker :
    main 3 3 1 [".", "*", ".", ".", "*", ".", ".", "*", "."] =
      some ". . .\n* * *\n. . .\n" := by
  decide

set_option maxRecDepth 100000 in
/-- Claim C10: on the example input of the source header (`9 18 2` and nine rows of
eighteen tokens) the program writes exactly the nine lines of the example output. -/
theorem main_header_example :
    main 9 18 2 exampleInput = some exampleOutput := by
  decide

/-! ## The printed text -/

theorem getDrawnCell_data (cell : Cell) : cell.getDrawnCell.data = [drawnChar cell] := by
  unfold Cell.getDrawnCell drawnChar
  cases cell.isLive <;> rfl

theorem lineChars_cons_cons (c d : Cell) (rest : List Cell) :
    lineChars (c :: d :: rest) = drawnChar c :: ' ' :: lineChars (d :: rest) := by
  simp [lineChars, List.intersperse]

theorem printRowLoop_data (size : Nat) :
    ∀ (cells : List Cell) (j : Nat) (out : String), j + cells.length = size →
      (printRowLoop size j cells out).data = out.data ++ lineChars cells
  | [], j, out, _ => by simp [printRowLoop, lineChars]
  | [c], j, out, h => by
    have hj : j = size - 1 := by simp at h; omega
    simp [printRowLoop, lineChars, hj, String.data_append, getDrawnCell_data]
  | c :: d :: rest, j, out, h => by
    have hj : j ≠ size - 1 := by simp at h; omega
    unfold printRowLoop
    simp only [hj, ne_eq, not_false_eq_true, if_true]
    rw [printRowLoop_data size (d :: rest) (j + 1) _ (by simp at h ⊢; omega)]
    rw [lineChars_cons_cons]
    simp [String.data_append, getDrawnCell_data]

theorem printBoardLoop_data :
    ∀ (rows : List (List Cell)) (out : String),
      (printBoardLoop rows out).data = out.data ++ printedChars rows
  | [], out => by simp [printBoardLoop, printedChars]
  | row :: rest, out => by
    unfold printBoardLoop
    simp only
    rw [printBoardLoop_data rest, String.data_append, printRowLoop_data row.length row 0 out
      (by simp)]
    simp [printedChars]

theorem printBoard_data (g : Board) : (printBoard g).data = printedChars g := by
  unfold printBoard
  rw [printBoardLoop_data]
  rfl

theorem lineChars_length : ∀ row : List Cell, (lineChars row).length = 2 * row.length - 1
  | [] => rfl
  | [_] => rfl
  | c :: d :: rest => by
    rw [lineChars_cons_cons]
    simp only [List.length_cons]
    rw [lineChars_length (d :: rest)]
    simp only [List.length_cons]
    omega

theorem newline_not_mem_lineChars : ∀ row : List Cell, '\n' ∉ lineChars row
  | [] => by simp [lineChars]
  | [c] => by
    simp only [lineChars, List.map, List.intersperse, List.mem_singleton]
    unfold drawnChar
    cases c.isLive <;> decide
  | c :: d :: rest => by
    rw [lineChars_cons_cons]
    have ih := newline_not_mem_lineChars (d :: rest)
    have hc : ¬ '\n' = drawnChar c := by
      unfold drawnChar
      cases c.isLive <;> decide
    simp only [List.mem_cons, not_or]
    exact ⟨hc, by decide, by simpa using ih⟩

theorem lineChars_getElem :
    ∀ (row : List Cell) (j : Nat) (cell : Cell), row[j]? = some cell →
      (lineChars row)[2 * j]? = some (drawnChar cell) ∧
        (j + 1 < row.length → (lineChars row)[2 * j + 1]? = some ' ')
  | [], j, cell, h => by simp at h
  | [c], 0, cell, h => by
    simp at h
    subst h
    simp [lineChars]
  | [c], j + 1, cell, h => by simp at h
  | c :: d :: rest, 0, cell, h => by
    simp at h
    subst h
    rw [lineChars_cons_cons]
    simp
  | c :: d :: rest, j + 1, cell, h => by
    rw [lineChars_cons_cons]
    have h' : (d :: rest)[j]? = some cell := by simpa using h
    obtain ⟨h1, h2⟩ := lineChars_getElem (d :: rest) j cell h'
    have e1 : 2 * (j + 1) = 2 * j + 1 + 1 := by ring
    have e2 : 2 * (j + 1) + 1 = (2 * j + 1) + 1 + 1 := by ring
    refine ⟨?_, ?_⟩
    · rw [e1]; simpa using h1
    · intro hlt
      rw [e2]
      have := h2 (by simp at hlt ⊢; omega)
      simpa using this

/-- Claim C11: for a board of `R` rows of `C` cells, the text `printBoard` writes is
the `R` lines of the rows, each followed by one newline; a line holds no newline, has
`2 * C - 1` characters, its character `2 * j` is the drawn character of cell `j`
(`*` for a live cell, `.` otherwise) and its character `2 * j + 1` is a space whenever a
further cell follows.  No bound on `C` is needed: for `C = 0` the lines are empty. -/
theorem printBoard_lines (g : Board) (R C : Nat) (hR : g.length = R)
    (hrows : ∀ row ∈ g, row.length = C) :
    (printBoard g).data = (g.map fun row => lineChars row ++ ['\n']).flatten ∧
      (g.map lineChars).length = R ∧
      ∀ row ∈ g, (lineChars row).length = 2 * C - 1 ∧ '\n' ∉ lineChars row ∧
        ∀ (j : Nat) (cell : Cell), row[j]? = some cell →
          drawnChar cell = (if cell.isLive then '*' else '.') ∧
          (lineChars row)[2 * j]? = some (drawnChar cell) ∧
          (j + 1 < C → (lineChars row)[2 * j + 1]? = some ' ') := by
  refine ⟨printBoard_data g, by simpa using hR, ?_⟩
  intro row hrow
  have hlen := hrows row hrow
  refine ⟨by rw [lineChars_length, hlen], newline_not_mem_lineChars row, ?_⟩
  intro j cell hcell
  obtain ⟨h1, h2⟩ := lineChars_getElem row j cell hcell
  exact ⟨rfl, h1, fun hj => h2 (by omega)⟩

/-- The printed form of the blinker board. -/
theorem printBoard_lines_witness :
    (printBoard blinkerBoard).data =
        (blinkerBoard.map fun row => lineChars row ++ ['\n']).flatten ∧
      (blinkerBoard.map lineChars).length = 3 ∧
      ∀ row ∈ blinkerBoard, (lineChars row).length = 2 * 3 - 1 ∧ '\n' ∉ lineChars row ∧
        ∀ (j : Nat) (cell : Cell), row[j]? = some cell →
          drawnChar cell = (if cell.isLive then '*' else '.') ∧
          (lineChars row)[2 * j]? = some (drawnChar cell) ∧
          (j + 1 < 3 → (lineChars row)[2 * j + 1]? = some ' ') :=
  printBoard_lines blinkerBoard 3 3 (by decide) (by decide)

/-! ## The board the reading loop builds -/

theorem mkGrid_succ (n C : Nat) (f : Int → Int → Bool) :
    mkGrid (n + 1) C f = mkGrid n C f ++ [rowStart f n C] := by
  simp [mkGrid, rowStart, List.range_succ]

theorem rowStart_succ (f : Int → Int → Bool) (i len : Nat) :
    rowStart f i (len + 1) =
      rowStart f i len ++
        [{ isLive := f (i : Int) (len : Int), posI := (i : Int), posJ := (len : Int) }] := by
  simp [rowStart, List.range_succ]

theorem tokenLive_natCast (C : Nat) (t : List String) (a b : Nat) :
    tokenLive C t (a : Int) (b : Int) = decide (t[a * C + b]? = some "*") := by
  unfold tokenLive
  have e : ((a : Int) * (C : Int) + (b : Int)) = ((a * C + b : Nat) : Int) := by push_cast; ring
  rw [e, Int.toNat_ofNat]

/-- The reading loop, started in the state it has after `rowCount` full rows and `len`
cells of the next row of the token list `t`, ends with the board of the full rows of `t`,
at most `R` of them. -/
theorem readLoop_eq_mkGrid (R C : Nat) (t : List String) :
    ∀ (tokens : List String) (rowCount len : Nat), rowCount < R → len < C →
      tokens = t.drop (rowCount * C + len) → rowCount * C + len ≤ t.length →
      readLoop (R : Int) (C : Int) tokens (mkGrid rowCount C (tokenLive C t))
          (rowStart (tokenLive C t) rowCount len) (rowCount : Int) =
        mkGrid (min R (t.length / C)) C (tokenLive C t)
  | [], rowCount, len, hR, hlen, htok, hle => by
    have hlen' : t.length ≤ rowCount * C + len := List.drop_eq_nil_iff.1 htok.symm
    have hmul : (rowCount + 1) * C = rowCount * C + C := Nat.succ_mul rowCount C
    have hdiv : t.length / C = rowCount :=
      Nat.div_eq_of_lt_le (by omega) (by omega)
    have hmin : min R (t.length / C) = rowCount := by rw [hdiv]; omega
    rw [hmin]
    rfl
  | input :: rest, rowCount, len, hR, hlen, htok, hle => by
    have hn : rowCount * C + len < t.length := by
      by_contra hcon
      have : t.drop (rowCount * C + len) = [] := List.drop_eq_nil_iff.2 (by omega)
      rw [this] at htok
      exact absurd htok (by simp)
    rw [List.drop_eq_getElem_cons hn] at htok
    injection htok with hin hrest
    have hlive : (if input = "*" then true else false) =
        tokenLive C t (rowCount : Int) (len : Int) := by
      rw [tokenLive_natCast, List.getElem?_eq_getElem hn, ← hin]
      by_cases h : input = "*" <;> simp [h]
    have hplen : (rowStart (tokenLive C t) rowCount len).length = len := by
      simp [rowStart]
    have hmul : (rowCount + 1) * C = rowCount * C + C := Nat.succ_mul rowCount C
    unfold readLoop
    simp only [hplen, hlive]
    rw [← rowStart_succ]
    by_cases hcol : (len : Int) ≥ (C : Int) - 1
    · have hfull : len + 1 = C := by omega
      rw [if_pos hcol, hfull, ← mkGrid_succ]
      by_cases hdone : (rowCount : Int) + 1 ≥ (R : Int)
      · rw [if_pos hdone]
        have hRe : R = rowCount + 1 := by omega
        have hge : R ≤ t.length / C := by
          rw [Nat.le_div_iff_mul_le (by omega)]
          rw [hRe]; omega
        rw [Nat.min_eq_left hge, hRe]
      · rw [if_neg hdone]
        have := readLoop_eq_mkGrid R C t rest (rowCount + 1) 0 (by omega) (by omega)
          (by rw [hrest]; congr 1; omega) (by omega)
        simpa [rowStart] using this
    · rw [if_neg hcol]
      have hnd : ¬ ((rowCount : Int) ≥ (R : Int)) := by omega
      rw [if_neg hnd]
      exact readLoop_eq_mkGrid R C t rest rowCount (len + 1) hR (by omega)
        (by rw [hrest]; rfl) (by omega)

theorem readBoard_eq_mkGrid (R C : Nat) (hR : 1 ≤ R) (hC : 1 ≤ C) (t : List String) :
    readBoard (R : Int) (C : Int) t = mkGrid (min R (t.length / C)) C (tokenLive C t) := by
  have := readLoop_eq_mkGrid R C t t 0 0 (by omega) (by omega) (by simp) (by omega)
  simpa [readBoard, mkGrid, rowStart] using this

theorem mkGrid_congr (R C : Nat) (f f' : Int → Int → Bool)
    (h : ∀ i j : Nat, i < R → j < C → f (i : Int) (j : Int) = f' (i : Int) (j : Int)) :
    mkGrid R C f = mkGrid R C f' := by
  unfold mkGrid
  apply List.map_congr_left
  intro i hi
  apply List.map_congr_left
  intro j hj
  rw [h i j (List.mem_range.1 hi) (List.mem_range.1 hj)]

theorem index_lt_mul {R C i j : Nat} (hi : i < R) (hj : j < C) : i * C + j < R * C := by
  have h1 : (i + 1) * C ≤ R * C := Nat.mul_le_mul_right C hi
  have h2 : (i + 1) * C = i * C + C := Nat.succ_mul i C
  omega

/-- Claim C12: for `ROWS, COLS ≥ 1` and at least `ROWS * COLS` tokens, the board the
reading loop builds is well formed (`ROWS` rows of `COLS` cells carrying their
coordinates), its cell `(i, j)` is alive exactly when token `i * COLS + j` is `*`, and
replacing what follows the first `ROWS * COLS` tokens by anything gives the same board. -/
theorem readBoard_contents (R C : Nat) (t : List String)
    (hR : 1 ≤ R) (hC : 1 ≤ C) (htok : R * C ≤ t.length) :
    WellFormed (R : Int) (C : Int) (readBoard (R : Int) (C : Int) t) ∧
      (∀ i j : Nat, i < R → j < C →
        boardAt (readBoard (R : Int) (C : Int) t) (i : Int) (j : Int) =
          some { isLive := decide (t[i * C + j]? = some "*"),
                 posI := (i : Int), posJ := (j : Int) }) ∧
      ∀ extra : List String,
        readBoard (R : Int) (C : Int) (t.take (R * C) ++ extra) =
          readBoard (R : Int) (C : Int) t := by
  have hge : R ≤ t.length / C := by
    rw [Nat.le_div_iff_mul_le (by omega)]; exact htok
  have hread : readBoard (R : Int) (C : Int) t = mkGrid R C (tokenLive C t) := by
    rw [readBoard_eq_mkGrid R C hR hC t, Nat.min_eq_left hge]
  refine ⟨by rw [hread]; exact wellFormed_mkGrid R C _, ?_, ?_⟩
  · intro i j hi hj
    have hin : (0 : Int) ≤ (i : Int) ∧ (i : Int) < (R : Int) ∧ (0 : Int) ≤ (j : Int) ∧
        (j : Int) < (C : Int) := by omega
    rw [hread, boardAt_mkGrid, if_pos hin, tokenLive_natCast]
  · intro extra
    have hlen : R * C ≤ (t.take (R * C) ++ extra).length := by
      simp [List.length_take, Nat.min_eq_left htok]
    have hge' : R ≤ (t.take (R * C) ++ extra).length / C := by
      rw [Nat.le_div_iff_mul_le (by omega)]; exact hlen
    rw [hread, readBoard_eq_mkGrid R C hR hC, Nat.min_eq_left hge']
    apply mkGrid_congr
    intro i j hi hj
    have hidx := index_lt_mul hi hj
    rw [tokenLive_natCast, tokenLive_natCast]
    have htake : (t.take (R * C) ++ extra)[i * C + j]? = t[i * C + j]? := by
      rw [List.getElem?_append_left (by simp [List.length_take]; omega),
        List.getElem?_take_of_lt hidx]
    rw [htake]

/-- The board read from the nine blinker tokens. -/
theorem readBoard_contents_witness :
    WellFormed 3 3 (readBoard 3 3 blinkerTokens) ∧
      boardAt (readBoard 3 3 blinkerTokens) 1 1 =
        some { isLive := decide (blinkerTokens[1 * 3 + 1]? = some "*"), posI := 1, posJ := 1 } :=
  ⟨(readBoard_contents 3 3 blinkerTokens (by decide) (by decide) (by decide)).1,
    (readBoard_contents 3 3 blinkerTokens (by decide) (by decide) (by decide)).2.1 1 1
      (by decide) (by decide)⟩

/-- Claim C13, as stated, fails: with `ROWS = COLS = 2` and the three tokens `*`, `.`,
`*` the reading loop ends with one row only, not two; the unfinished second row is never
pushed, and the board has no cell at `(1, 0)` although a token was read for it. -/
theorem readBoard_short_counterexample :
    ["*", ".", "*"].length < 2 * 2 ∧
      readBoard 2 2 ["*", ".", "*"] =
        [[{ isLive := true, posI := 0, posJ := 0 }, { isLive := false, posI := 0, posJ := 1 }]] ∧
      (readBoard 2 2 ["*", ".", "*"]).length ≠ 2 ∧
      boardAt (readBoard 2 2 ["*", ".", "*"]) 1 0 = none := by
  decide

/-- Claim C13, amended: for `ROWS, COLS ≥ 1` and fewer than `ROWS * COLS` tokens, the
reading loop builds the board of the full rows of tokens only: it has `|t| / COLS` rows,
fewer than `ROWS`, each of `COLS` cells carrying their coordinates; cell `(i, j)` is alive
exactly when token `i * COLS + j` is `*`, and there is no cell at any other position. -/
theorem readBoard_short (R C : Nat) (t : List String)
    (hR : 1 ≤ R) (hC : 1 ≤ C) (htok : t.length < R * C) :
    t.length / C < R ∧
      WellFormed ((t.length / C : Nat) : Int) (C : Int) (readBoard (R : Int) (C : Int) t) ∧
      ∀ i j : Int, boardAt (readBoard (R : Int) (C : Int) t) i j =
        if 0 ≤ i ∧ i < ((t.length / C : Nat) : Int) ∧ 0 ≤ j ∧ j < (C : Int) then
          some { isLive := decide (t[(i * (C : Int) + j).toNat]? = some "*"),
                 posI := i, posJ := j }
        else none := by
  have hlt : t.length / C < R := (Nat.div_lt_iff_lt_mul (by omega)).2 htok
  have hread : readBoard (R : Int) (C : Int) t = mkGrid (t.length / C) C (tokenLive C t) := by
    rw [readBoard_eq_mkGrid R C hR hC t, Nat.min_eq_right (by omega)]
  refine ⟨hlt, by rw [hread]; exact wellFormed_mkGrid _ C _, ?_⟩
  intro i j
  rw [hread, boardAt_mkGrid]
  rfl

/-- Three tokens for a 2 × 2 board: one row is built. -/
theorem readBoard_short_witness :
    ["*", ".", "*"].length / 2 < 2 ∧
      WellFormed ((["*", ".", "*"].length / 2 : Nat) : Int) 2 (readBoard 2 2 ["*", ".", "*"]) :=
  ⟨(readBoard_short 2 2 ["*", ".", "*"] (by decide) (by decide) (by decide)).1,
    (readBoard_short 2 2 ["*", ".", "*"] (by decide) (by decide) (by decide)).2.1⟩

/-- Claim C14, on the code: with `ROWS = 2`, `COLS = 1` and the single token `*` the board
has one row; the counting loops for its cell pass both guards at `(1, 0)`, where the board
has no row, so the step and the program leave defined behaviour. -/
theorem short_input_lookup_out_of_range :
    readBoard 2 1 ["*"] = [[{ isLive := true, posI := 0, posJ := 0 }]] ∧
      inBoundsI 2 1 = true ∧ inBoundsJ 1 0 = true ∧
      boardAt (readBoard 2 1 ["*"]) 1 0 = none ∧
      getCellLiveNeighborCount 2 1 (readBoard 2 1 ["*"])
        { isLive := true, posI := 0, posJ := 0 } = none ∧
      applyRulesetToGeneration 2 1 (readBoard 2 1 ["*"]) = none ∧
      main 2 1 1 ["*"] = none := by
  decide

/-! ## Lookups stay in range -/

theorem boardAt_isSome_iff (g : Board) (i j : Int) :
    (boardAt g i j).isSome = true ↔ LookupInRange g i j := by
  unfold LookupInRange
  rw [Option.isSome_iff_exists]
  constructor
  · rintro ⟨cell, hcell⟩
    obtain ⟨a, b, rfl, rfl, row, hrow, hc⟩ := (boardAt_eq_some_iff g i j cell).1 hcell
    refine ⟨by omega, by omega, row, by simpa using hrow, ?_⟩
    simpa using (List.getElem?_eq_some_iff.1 hc).1
  · rintro ⟨hi, hj, row, hrow, hlt⟩
    refine ⟨row[j.toNat], (boardAt_eq_some_iff g i j _).2
      ⟨i.toNat, j.toNat, (Int.toNat_of_nonneg hi).symm, (Int.toNat_of_nonneg hj).symm, row,
        hrow, List.getElem?_eq_getElem hlt⟩⟩

theorem neighborColLoop_isSome (COLS : Int) (board : Board) (cell : Cell) (i : Int) :
    ∀ (js : List Int) (cnt r : Int), neighborColLoop COLS board cell i js cnt = some r →
      ∀ j ∈ js, inBoundsJ COLS j = true → (boardAt board i j).isSome = true
  | [], _, _, _ => by simp
  | j :: rest, cnt, r, h => by
    unfold neighborColLoop at h
    intro j' hj' hb'
    by_cases hb : inBoundsJ COLS j = true
    · simp only [hb, Bool.not_true, Bool.false_eq_true, if_false] at h
      cases hn : boardAt board i j with
      | none => simp [hn] at h
      | some n =>
        rcases List.mem_cons.1 hj' with rfl | hmem
        · simp [hn]
        · simp only [hn] at h
          split at h
          · exact neighborColLoop_isSome COLS board cell i rest _ r h j' hmem hb'
          · split at h
            · exact neighborColLoop_isSome COLS board cell i rest _ r h j' hmem hb'
            · exact neighborColLoop_isSome COLS board cell i rest _ r h j' hmem hb'
    · rcases List.mem_cons.1 hj' with rfl | hmem
      · exact absurd hb' hb
      · simp only [hb, Bool.not_false, if_true] at h
        exact neighborColLoop_isSome COLS board cell i rest _ r h j' hmem hb'

theorem neighborRowLoop_isSome (ROWS COLS : Int) (board : Board) (cell : Cell)
    (js : List Int) :
    ∀ (is : List Int) (cnt r : Int),
      neighborRowLoop ROWS COLS board cell js is cnt = some r →
      ∀ i ∈ is, inBoundsI ROWS i = true →
        ∀ j ∈ js, inBoundsJ COLS j = true → (boardAt board i j).isSome = true
  | [], _, _, _ => by simp
  | i :: rest, cnt, r, h => by
    unfold neighborRowLoop at h
    intro i' hi' hb'
    by_cases hb : inBoundsI ROWS i = true
    · simp only [hb, Bool.not_true, Bool.false_eq_true, if_false] at h
      cases hc : neighborColLoop COLS board cell i js cnt with
      | none => simp [hc] at h
      | some cnt' =>
        simp only [hc] at h
        rcases List.mem_cons.1 hi' with rfl | hmem
        · exact neighborColLoop_isSome COLS board cell i' js cnt cnt' hc
        · exact neighborRowLoop_isSome ROWS COLS board cell js rest _ r h i' hmem hb'
    · rcases List.mem_cons.1 hi' with rfl | hmem
      · exact absurd hb' hb
      · simp only [hb, Bool.not_false, if_true] at h
        exact neighborRowLoop_isSome ROWS COLS board cell js rest _ r h i' hmem hb'

theorem mem_neighborAccesses (ROWS COLS : Int) (cell : Cell) (p : Int × Int) :
    p ∈ neighborAccesses ROWS COLS cell ↔
      (p.1 ∈ [cell.posI - 1, cell.posI - 1 + 1, cell.posI - 1 + 2] ∧
        inBoundsI ROWS p.1 = true) ∧
      (p.2 ∈ [cell.posJ - 1, cell.posJ - 1 + 1, cell.posJ - 1 + 2] ∧
        inBoundsJ COLS p.2 = true) := by
  obtain ⟨i, j⟩ := p
  unfold neighborAccesses
  simp only [List.mem_flatMap, List.mem_filter, List.mem_map, Prod.mk.injEq]
  constructor
  · rintro ⟨i', hi', j', hj', rfl, rfl⟩
    exact ⟨hi', hj'⟩
  · rintro ⟨hi, hj⟩
    exact ⟨i, hi, j, hj, rfl, rfl⟩

/-- The count is defined exactly when every lookup the loops perform is within range. -/
theorem getCellLiveNeighborCount_isSome_iff (ROWS COLS : Int) (g : Board) (cell : Cell) :
    (getCellLiveNeighborCount ROWS COLS g cell).isSome = true ↔
      ∀ p ∈ neighborAccesses ROWS COLS cell, LookupInRange g p.1 p.2 := by
  constructor
  · intro h p hp
    obtain ⟨r, hr⟩ := Option.isSome_iff_exists.1 h
    obtain ⟨⟨hi, hbi⟩, hj, hbj⟩ := (mem_neighborAccesses ROWS COLS cell p).1 hp
    rw [← boardAt_isSome_iff]
    exact neighborRowLoop_isSome ROWS COLS g cell _ _ 0 r hr p.1 hi hbi p.2 hj hbj
  · intro h
    unfold getCellLiveNeighborCount
    simp only
    rw [neighborRowLoop_eq]
    · rfl
    · intro i hi hbi j hj hbj
      rw [boardAt_isSome_iff]
      exact h (i, j) ((mem_neighborAccesses ROWS COLS cell (i, j)).2 ⟨⟨hi, hbi⟩, hj, hbj⟩)

/-- Claim C15: on a well-formed board every lookup `board[i][j]` the counting loops
perform, for every cell of the board, has `0 ≤ i < ROWS` and `0 ≤ j < COLS` and is within
the range of the board, so every count is defined and the step returns a board (again
well formed). -/
theorem applyRulesetToGeneration_total (ROWS COLS : Int) (g : Board)
    (hwf : WellFormed ROWS COLS g) :
    (∀ row ∈ g, ∀ cell ∈ row,
        (∀ p ∈ neighborAccesses ROWS COLS cell,
          (0 ≤ p.1 ∧ p.1 < ROWS ∧ 0 ≤ p.2 ∧ p.2 < COLS) ∧ LookupInRange g p.1 p.2) ∧
        (getCellLiveNeighborCount ROWS COLS g cell).isSome = true) ∧
      ∃ g', applyRulesetToGeneration ROWS COLS g = some g' ∧ WellFormed ROWS COLS g' := by
  have hacc : ∀ cell : Cell, ∀ p ∈ neighborAccesses ROWS COLS cell,
      (0 ≤ p.1 ∧ p.1 < ROWS ∧ 0 ≤ p.2 ∧ p.2 < COLS) ∧ LookupInRange g p.1 p.2 := by
    intro cell p hp
    obtain ⟨⟨-, hbi⟩, -, hbj⟩ := (mem_neighborAccesses ROWS COLS cell p).1 hp
    rw [inBoundsI_iff] at hbi
    rw [inBoundsJ_iff] at hbj
    refine ⟨⟨hbi.1, hbi.2, hbj.1, hbj.2⟩, ?_⟩
    rw [← boardAt_isSome_iff]
    exact hwf.covers p.1 p.2 hbi.1 hbi.2 hbj.1 hbj.2
  refine ⟨?_, _, applyRulesetToGeneration_wellFormed hwf, hwf.step⟩
  intro row _ cell _
  exact ⟨hacc cell, (getCellLiveNeighborCount_isSome_iff ROWS COLS g cell).2
    (fun p hp => (hacc cell p hp).2)⟩

/-- The step on the blinker board returns a well-formed board. -/
theorem applyRulesetToGeneration_total_witness :
    WellFormed 3 3 blinkerBoard ∧
      ∃ g', applyRulesetToGeneration 3 3 blinkerBoard = some g' ∧ WellFormed 3 3 g' :=
  ⟨by decide, (applyRulesetToGeneration_total 3 3 blinkerBoard (by decide)).2⟩

/-! ## Coordinates under the step -/

theorem forall₂_getElem? {α β : Type} {P : α → β → Prop} :
    ∀ {l : List α} {l' : List β}, List.Forall₂ P l l' → ∀ (a : Nat) (y : β),
      l'[a]? = some y → ∃ x, l[a]? = some x ∧ P x y
  | _, _, List.Forall₂.nil, a, y, h => by simp at h
  | _, _, List.Forall₂.cons hxy _, 0, y, h => by
    simp at h
    subst h
    exact ⟨_, by simp, hxy⟩
  | _, _, List.Forall₂.cons _ hrest, a + 1, y, h => by
    obtain ⟨x, hx, hp⟩ := forall₂_getElem? hrest a y (by simpa using h)
    exact ⟨x, by simpa using hx, hp⟩

theorem StepRel.boardAt {ROWS COLS : Int} {g a b : Board} (h : StepRel ROWS COLS g a b)
    {i j : Int} {cell' : Cell} (hc : boardAt b i j = some cell') :
    ∃ cell, boardAt a i j = some cell ∧ getUpdatedCell ROWS COLS g cell = some cell' := by
  obtain ⟨x, y, rfl, rfl, row', hrow', hcell'⟩ := (boardAt_eq_some_iff b i j cell').1 hc
  obtain ⟨row, hrow, hrel⟩ := forall₂_getElem? h x row' hrow'
  obtain ⟨cell, hcell, hupd⟩ := forall₂_getElem? hrel y cell' hcell'
  exact ⟨cell, (boardAt_eq_some_iff a _ _ cell).2 ⟨x, y, rfl, rfl, row, hrow, hcell⟩, hupd⟩

theorem getUpdatedCell_coords {ROWS COLS : Int} {g : Board} {cell cell' : Cell}
    (h : getUpdatedCell ROWS COLS g cell = some cell') :
    cell'.posI = cell.posI ∧ cell'.posJ = cell.posJ := by
  rw [getUpdatedCell_eq] at h
  cases hk : getCellLiveNeighborCount ROWS COLS g cell with
  | none => simp [hk] at h
  | some k =>
    simp only [hk, Option.map_some', Option.some.injEq] at h
    subst h
    exact ⟨rfl, rfl⟩

theorem applyRulesetToGeneration_coordsMatch {ROWS COLS : Int} {g g' : Board}
    (h : applyRulesetToGeneration ROWS COLS g = some g') (hg : CoordsMatch g) :
    CoordsMatch g' := by
  intro i j cell' hc
  obtain ⟨cell, hcell, hupd⟩ := (applyRulesetToGeneration_some h).boardAt hc
  obtain ⟨hI, hJ⟩ := getUpdatedCell_coords hupd
  obtain ⟨h1, h2⟩ := hg i j cell hcell
  exact ⟨by rw [hI, h1], by rw [hJ, h2]⟩

theorem iterateGenerations_coordsMatch {ROWS COLS : Int} :
    ∀ (n : Nat) {g g' : Board}, iterateGenerations ROWS COLS n g = some g' →
      CoordsMatch g → CoordsMatch g'
  | 0, g, g', h, hg => by
    simp [iterateGenerations] at h
    subst h; exact hg
  | n + 1, g, g', h, hg => by
    unfold iterateGenerations at h
    cases hs : applyRulesetToGeneration ROWS COLS g with
    | none => simp [hs] at h
    | some g1 =>
      simp only [hs] at h
      exact iterateGenerations_coordsMatch n h (applyRulesetToGeneration_coordsMatch hs hg)

theorem WellFormed.coordsMatch {ROWS COLS : Int} {g : Board} (h : WellFormed ROWS COLS g) :
    CoordsMatch g := by
  intro i j cell hc
  obtain ⟨-, -, -, -, hI, hJ⟩ := h.of_boardAt hc
  exact ⟨hI, hJ⟩

/-- Claim C16: every cell of a board the step returns has the `posI` and `posJ` of the old
board's cell at the same position; hence when the cells of `g` carry the coordinates of
their positions, so do the cells of every board any number of generations returns, and
from a well-formed board every number of generations does return such a board. -/
theorem applyRulesetToGeneration_coordinates (ROWS COLS : Int) (g : Board) :
    (∀ g', applyRulesetToGeneration ROWS COLS g = some g' →
        ∀ (i j : Int) (cell' : Cell), boardAt g' i j = some cell' →
          ∃ cell, boardAt g i j = some cell ∧
            cell'.posI = cell.posI ∧ cell'.posJ = cell.posJ) ∧
      (∀ (n : Nat) (g' : Board), iterateGenerations ROWS COLS n g = some g' →
        CoordsMatch g → CoordsMatch g') ∧
      (WellFormed ROWS COLS g → ∀ n : Nat, ∃ g',
        iterateGenerations ROWS COLS n g = some g' ∧ WellFormed ROWS COLS g' ∧
          CoordsMatch g') := by
  refine ⟨?_, ?_, ?_⟩
  · intro g' h i j cell' hc
    obtain ⟨cell, hcell, hupd⟩ := (applyRulesetToGeneration_some h).boardAt hc
    exact ⟨cell, hcell, getUpdatedCell_coords hupd⟩
  · intro n g' h hg
    exact iterateGenerations_coordsMatch n h hg
  · intro hwf n
    obtain ⟨g', hg', hwf'⟩ := iterateGenerations_wellFormed n hwf
    exact ⟨g', hg', hwf', hwf'.coordsMatch⟩

/-- Three generations of the blinker board keep the coordinates. -/
theorem applyRulesetToGeneration_coordinates_witness :
    WellFormed 3 3 blinkerBoard ∧
      ∃ g', iterateGenerations 3 3 3 blinkerBoard = some g' ∧ WellFormed 3 3 g' ∧
        CoordsMatch g' :=
  ⟨by decide, (applyRulesetToGeneration_coordinates 3 3 blinkerBoard).2.2 (by decide) 3⟩

/-! ## Reading what was printed -/

theorem isSpace_drawnChar (cell : Cell) : isSpace (drawnChar cell) = false := by
  unfold drawnChar
  cases cell.isLive <;> decide

theorem mk_drawnChar (cell : Cell) : String.mk [drawnChar cell] = cell.getDrawnCell := by
  unfold drawnChar Cell.getDrawnCell
  cases cell.isLive <;> rfl

theorem tokenizeLoop_line (rest : List Char) :
    ∀ row : List Cell,
      tokenizeLoop (lineChars row ++ '\n' :: rest) [] =
        row.map Cell.getDrawnCell ++ tokenizeLoop rest []
  | [] => by
    have h : isSpace '\n' = true := by decide
    simp [lineChars, tokenizeLoop, h]
  | [c] => by
    have h : isSpace '\n' = true := by decide
    simp [lineChars, tokenizeLoop, h, isSpace_drawnChar, mk_drawnChar]
  | c :: d :: more => by
    have h : isSpace ' ' = true := by decide
    rw [lineChars_cons_cons]
    have ih := tokenizeLoop_line rest (d :: more)
    simp only [List.cons_append, tokenizeLoop, isSpace_drawnChar, h, List.nil_append,
      Bool.false_eq_true, if_false, if_true, List.isEmpty_cons, mk_drawnChar, List.map_cons]
    have ih' : tokenizeLoop ((lineChars (d :: more)).append ('\n' :: rest)) [] =
        List.map Cell.getDrawnCell (d :: more) ++ tokenizeLoop rest [] := ih
    rw [ih']
    simp

theorem tokenizeLoop_printedChars :
    ∀ g : Board, tokenizeLoop (printedChars g) [] = (g.map (List.map Cell.getDrawnCell)).flatten
  | [] => by simp [printedChars, tokenizeLoop]
  | row :: rest => by
    have e : printedChars (row :: rest) = lineChars row ++ '\n' :: printedChars rest := by
      simp [printedChars]
    rw [e, tokenizeLoop_line, tokenizeLoop_printedChars rest]
    simp

theorem tokenize_printBoard (g : Board) :
    tokenize (printBoard g) = (g.map (List.map Cell.getDrawnCell)).flatten := by
  unfold tokenize
  rw [printBoard_data, tokenizeLoop_printedChars]

theorem getDrawnCell_eq_star (cell : Cell) :
    (if cell.getDrawnCell = "*" then true else false) = cell.isLive := by
  unfold Cell.getDrawnCell
  cases cell.isLive <;> decide

/-- The reading loop on the tokens of the rest `suf` of a row whose first cells `pre` are
already in `cellRowArray`: the row is completed and pushed. -/
theorem readLoop_row (R C : Nat) (rest : List String) (board : Board) (rowCount : Nat)
    (hrc : rowCount < R) :
    ∀ (suf pre : List Cell), suf ≠ [] → (pre ++ suf).length = C →
      RowCoords (rowCount : Int) (pre ++ suf) →
      readLoop (R : Int) (C : Int) (suf.map Cell.getDrawnCell ++ rest) board pre
          (rowCount : Int) =
        if (rowCount : Int) + 1 ≥ (R : Int) then board ++ [pre ++ suf]
        else readLoop (R : Int) (C : Int) rest (board ++ [pre ++ suf]) [] ((rowCount : Int) + 1)
  | [], _, h, _, _ => absurd rfl h
  | c :: suf, pre, _, hlen, hco => by
    have hc : c.posI = (rowCount : Int) ∧ c.posJ = (pre.length : Int) :=
      hco pre.length c (by rw [List.getElem?_append_right (Nat.le_refl _)]; simp)
    have hcell : Cell.mk (if c.getDrawnCell = "*" then true else false)
        (rowCount : Int) (pre.length : Int) = c := by
      rw [getDrawnCell_eq_star, ← hc.1, ← hc.2]
    simp only [List.map_cons, List.cons_append]
    rw [readLoop]
    simp only [hcell]
    cases suf with
    | nil =>
      have hcol : (pre.length : Int) ≥ (C : Int) - 1 := by simp at hlen; omega
      rw [if_pos hcol]
      simp
    | cons d more =>
      have hcol : ¬ (pre.length : Int) ≥ (C : Int) - 1 := by simp at hlen; omega
      have hnd : ¬ ((rowCount : Int) ≥ (R : Int)) := by omega
      rw [if_neg hcol, if_neg hnd]
      have ih := readLoop_row R C rest board rowCount hrc (d :: more) (pre ++ [c])
        (by simp) (by simpa using hlen) (by simpa using hco)
      simpa using ih

/-- The reading loop on the printed tokens of the rows still to be read. -/
theorem readLoop_rows (R C : Nat) (hC : 1 ≤ C) :
    ∀ (rows done : Board), rows ≠ [] → (done ++ rows).length = R →
      (∀ (a : Nat) (row : List Cell), (done ++ rows)[a]? = some row →
        row.length = C ∧ RowCoords (a : Int) row) →
      readLoop (R : Int) (C : Int) (rows.map (List.map Cell.getDrawnCell)).flatten done []
          ((done.length : Nat) : Int) = done ++ rows
  | [], _, h, _, _ => absurd rfl h
  | row :: rows, done, _, hlen, hrows => by
    obtain ⟨hrl, hco⟩ := hrows done.length row
      (by rw [List.getElem?_append_right (Nat.le_refl _)]; simp)
    have hne : row ≠ [] := by
      intro h; rw [h] at hrl; simp at hrl; omega
    have hrc : done.length < R := by simp at hlen; omega
    simp only [List.map_cons, List.flatten_cons]
    rw [readLoop_row R C _ done done.length hrc row [] hne (by simpa using hrl)
      (by simpa using hco)]
    cases rows with
    | nil =>
      have : (done.length : Int) + 1 ≥ (R : Int) := by simp at hlen; omega
      simp [this]
    | cons r2 rs =>
      have : ¬ (done.length : Int) + 1 ≥ (R : Int) := by simp at hlen; omega
      rw [if_neg this]
      have ih := readLoop_rows R C hC (r2 :: rs) (done ++ [row]) (by simp)
        (by simpa using hlen) (by simpa using hrows)
      simpa using ih

/-- Claim C17: for `ROWS, COLS ≥ 1` and a well-formed `ROWS × COLS` board `g`, the
reading loop run on the whitespace-delimited tokens of the text `printBoard g` rebuilds
`g` itself (every cell with its live flag, `posI` and `posJ`). -/
theorem readBoard_printBoard (R C : Nat) (g : Board) (hR : 1 ≤ R) (hC : 1 ≤ C)
    (hwf : WellFormed (R : Int) (C : Int) g) :
    readBoard (R : Int) (C : Int) (tokenize (printBoard g)) = g := by
  rw [tokenize_printBoard]
  obtain ⟨hlen, hrows⟩ := (wellFormed_iff _ _ g).1 hwf
  have hne : g ≠ [] := by
    intro h; rw [h] at hlen; simp at hlen; omega
  have := readLoop_rows R C hC g [] hne (by simpa using hlen)
    (by
      intro a row ha
      obtain ⟨h1, h2⟩ := hrows a row (by simpa using ha)
      exact ⟨by omega, h2⟩)
  simpa [readBoard] using this

/-- Printing the blinker board and reading the text back. -/
theorem readBoard_printBoard_witness :
    WellFormed 3 3 blinkerBoard ∧
      readBoard 3 3 (tokenize (printBoard blinkerBoard)) = blinkerBoard :=
  ⟨by decide, readBoard_printBoard 3 3 blinkerBoard (by decide) (by decide) (by decide)⟩

/-! ## Mirroring -/

theorem liveAt_step {ROWS COLS : Int} {g : Board} (h : WellFormed ROWS COLS g) (r c : Int) :
    liveAt (g.map (List.map (stepCell ROWS COLS g))) r c =
      (decide (0 ≤ r ∧ r < ROWS ∧ 0 ≤ c ∧ c < COLS) &&
        nextCellState (liveAt g r c) ((mooreLiveCount ROWS COLS g r c : Nat) : Int)) := by
  unfold liveAt
  rw [boardAt_map]
  cases hc : boardAt g r c with
  | none =>
    have hout : ¬ (0 ≤ r ∧ r < ROWS ∧ 0 ≤ c ∧ c < COLS) := by
      rintro ⟨h1, h2, h3, h4⟩
      obtain ⟨cell, hcell, -⟩ := h.boardAt_some h1 h2 h3 h4
      rw [hc] at hcell
      exact absurd hcell (by simp)
    simp [hout]
  | some cell =>
    obtain ⟨h1, h2, h3, h4, hI, hJ⟩ := h.of_boardAt hc
    have hin : 0 ≤ r ∧ r < ROWS ∧ 0 ≤ c ∧ c < COLS := ⟨h1, h2, h3, h4⟩
    simp [hin, stepCell, hI, hJ]

theorem liveTerm_mirror (R C : Nat) (g : Board) (i j : Int) :
    liveTerm (R : Int) (C : Int) (mirrorGrid R C g) i j =
      liveTerm (R : Int) (C : Int) g i ((C : Int) - 1 - j) := by
  unfold liveTerm mirrorGrid
  rw [liveAt_mkGrid]
  by_cases hb : 0 ≤ i ∧ i < (R : Int) ∧ 0 ≤ j ∧ j < (C : Int)
  · have hb' : 0 ≤ i ∧ i < (R : Int) ∧ 0 ≤ (C : Int) - 1 - j ∧ (C : Int) - 1 - j < (C : Int) := by
      omega
    simp only [decide_eq_true hb, decide_eq_true hb', Bool.true_and]
  · have hb' : ¬ (0 ≤ i ∧ i < (R : Int) ∧ 0 ≤ (C : Int) - 1 - j ∧
        (C : Int) - 1 - j < (C : Int)) := by omega
    simp only [decide_eq_false hb, decide_eq_false hb', Bool.false_and]

theorem mooreLiveCount_mirror (R C : Nat) (g : Board) (i j : Int) :
    mooreLiveCount (R : Int) (C : Int) (mirrorGrid R C g) i j =
      mooreLiveCount (R : Int) (C : Int) g i ((C : Int) - 1 - j) := by
  have hcast : ((mooreLiveCount (R : Int) (C : Int) (mirrorGrid R C g) i j : Nat) : Int) =
      ((mooreLiveCount (R : Int) (C : Int) g i ((C : Int) - 1 - j) : Nat) : Int) := by
    rw [mooreLiveCount_eq_sum, mooreLiveCount_eq_sum]
    simp only [liveTerm_mirror]
    have e1 : (C : Int) - 1 - (j - 1) = (C : Int) - 1 - j + 1 := by ring
    have e2 : (C : Int) - 1 - (j + 1) = (C : Int) - 1 - j - 1 := by ring
    rw [e1, e2]
    ring
  exact_mod_cast hcast

/-- Claim C18: for a well-formed `ROWS × COLS` board `g`, its mirror image is well formed
with the live flag of `g` at `(i, COLS - 1 - j)` in cell `(i, j)`; the step returns a
well-formed board on both, and at every in-bounds `(i, j)` the live flag of the step of the
mirror image is the live flag of the step of `g` at `(i, COLS - 1 - j)`. -/
theorem step_commutes_with_mirror (R C : Nat) (g : Board)
    (hwf : WellFormed (R : Int) (C : Int) g) :
    WellFormed (R : Int) (C : Int) (mirrorGrid R C g) ∧
      (∀ i j : Int, 0 ≤ i → i < (R : Int) → 0 ≤ j → j < (C : Int) →
        liveAt (mirrorGrid R C g) i j = liveAt g i ((C : Int) - 1 - j)) ∧
      ∃ gm' g', applyRulesetToGeneration (R : Int) (C : Int) (mirrorGrid R C g) = some gm' ∧
        applyRulesetToGeneration (R : Int) (C : Int) g = some g' ∧
        WellFormed (R : Int) (C : Int) gm' ∧ WellFormed (R : Int) (C : Int) g' ∧
        ∀ i j : Int, 0 ≤ i → i < (R : Int) → 0 ≤ j → j < (C : Int) →
          liveAt gm' i j = liveAt g' i ((C : Int) - 1 - j) := by
  have hwfm : WellFormed (R : Int) (C : Int) (mirrorGrid R C g) := wellFormed_mkGrid R C _
  have hlive : ∀ i j : Int, 0 ≤ i → i < (R : Int) → 0 ≤ j → j < (C : Int) →
      liveAt (mirrorGrid R C g) i j = liveAt g i ((C : Int) - 1 - j) := by
    intro i j h1 h2 h3 h4
    unfold mirrorGrid
    rw [liveAt_mkGrid]
    have hin : 0 ≤ i ∧ i < (R : Int) ∧ 0 ≤ j ∧ j < (C : Int) := ⟨h1, h2, h3, h4⟩
    simp [hin]
  refine ⟨hwfm, hlive, _, _, applyRulesetToGeneration_wellFormed hwfm,
    applyRulesetToGeneration_wellFormed hwf, hwfm.step, hwf.step, ?_⟩
  intro i j h1 h2 h3 h4
  rw [liveAt_step hwfm, liveAt_step hwf, mooreLiveCount_mirror, hlive i j h1 h2 h3 h4]
  have hin : 0 ≤ i ∧ i < (R : Int) ∧ 0 ≤ j ∧ j < (C : Int) := ⟨h1, h2, h3, h4⟩
  have hin' : 0 ≤ i ∧ i < (R : Int) ∧ 0 ≤ (C : Int) - 1 - j ∧ (C : Int) - 1 - j < (C : Int) := by
    omega
  simp only [decide_eq_true hin, decide_eq_true hin', Bool.true_and]

/-- The step and the mirror image on the board read from an asymmetric 2 × 3 input. -/
theorem step_commutes_with_mirror_witness :
    WellFormed 2 3 (readBoard 2 3 ["*", "*", ".", "*", ".", "."]) ∧
      ∃ gm' g',
        applyRulesetToGeneration 2 3
            (mirrorGrid 2 3 (readBoard 2 3 ["*", "*", ".", "*", ".", "."])) = some gm' ∧
          applyRulesetToGeneration 2 3 (readBoard 2 3 ["*", "*", ".", "*", ".", "."]) =
            some g' ∧
          ∀ i j : Int, 0 ≤ i → i < 2 → 0 ≤ j → j < 3 →
            liveAt gm' i j = liveAt g' i (3 - 1 - j) :=
  ⟨by decide,
    let ⟨gm', g', h1, h2, _, _, h3⟩ :=
      (step_commutes_with_mirror 2 3 (readBoard 2 3 ["*", "*", ".", "*", ".", "."])
        (by decide)).2.2
    ⟨gm', g', h1, h2, h3⟩⟩

end GameOfLife
